import Mathlib

/-!
Verification of the azure-permission-audit graph synchronization engine.

The Python source builds a property graph (Neo4j) from Azure subscriptions,
role assignments and directory principals.  We give a shallow embedding:

* `Graph` models the store as lists of nodes and edges.  The orchestrator
  (`main.py`, `apply_constraints`) installs uniqueness constraints on the
  `id` property of every node label, so edges may identify their endpoints
  by `(label, id)` pairs.
* Cypher `MERGE` on a node pattern matches a node carrying exactly the
  pattern's properties and creates it otherwise; `MERGE` on a relationship
  pattern with bound endpoints matches an edge whose properties extend the
  pattern's property map and creates the edge otherwise.  `MATCH` yields no
  rows (hence no write) when an endpoint is missing.  `SET` updates a
  property on every matched edge.
-/

/-- A stored node: label (`SUBSCRIPTION` / `GROUP` / `USER`), `id` property
and `name` property, mirroring the `MERGE (:LABEL {id: .., name: ..})`
queries of `main.py`. -/
structure GNode where
  label : String
  id : String
  name : String
deriving DecidableEq, Repr

/-- A stored relationship; endpoints are identified by `(label, id)` (the
store enforces uniqueness of `id` per label via the constraints applied at
startup).  `props` is the relationship's property map. -/
structure GEdge where
  etype : String
  fromLabel : String
  fromId : String
  toLabel : String
  toId : String
  props : List (String × String)
deriving DecidableEq, Repr

/-- The graph store state. -/
structure Graph where
  nodes : List GNode
  edges : List GEdge
deriving DecidableEq, Repr

def Graph.empty : Graph := ⟨[], []⟩

/-- `MATCH (n:label {id: id})` succeeds iff such a node exists. -/
def hasNode (g : Graph) (label id : String) : Bool :=
  g.nodes.any fun n => n.label == label && n.id == id

/-- Cypher `MERGE (:label {id: .., name: ..})`: match a node carrying the
full pattern, create it otherwise. -/
def mergeNode (g : Graph) (n : GNode) : Graph :=
  if n ∈ g.nodes then g else { g with nodes := g.nodes ++ [n] }

/-- Property-map lookup used by relationship pattern matching. -/
def propsLookup (props : List (String × String)) (k : String) : Option String :=
  (props.find? fun p => p.1 == k).map Prod.snd

/-- An `ASSIGNMENT` relationship pattern `(s:SUBSCRIPTION {id: sid})-[r:ASSIGNMENT
{id: aid, role_id: rid}]->(n:plabel {id: pid})` matches a stored edge. -/
def matchAssign (e : GEdge) (sid plabel pid aid rid : String) : Bool :=
  e.etype == "ASSIGNMENT" && e.fromLabel == "SUBSCRIPTION" && e.fromId == sid &&
    e.toLabel == plabel && e.toId == pid &&
    propsLookup e.props "id" == some aid && propsLookup e.props "role_id" == some rid

/-- The `MERGE` step of `record_assignments` (`main.py`) and
`Assignment.merge_record` (`models/assignments.py`): both endpoint `MATCH`es
must succeed, then the edge keyed by `(id, role_id)` is merged. -/
def mergeAssignEdge (g : Graph) (sid plabel pid aid rid : String) : Graph :=
  if hasNode g "SUBSCRIPTION" sid && hasNode g plabel pid then
    if g.edges.any fun e => matchAssign e sid plabel pid aid rid then g
    else { g with
           edges := g.edges ++
             [⟨"ASSIGNMENT", "SUBSCRIPTION", sid, plabel, pid,
               [("id", aid), ("role_id", rid)]⟩] }
  else g

/-- `GroupPrincipal.merge_member_record` (`models/principals.py`): `MATCH`
the group node and the member node, then `MERGE (n)-[:MEMBER_OF]->(g)` — a
property-less edge keyed by its endpoints. -/
def merge_member_record (g : Graph) (groupId memberLabel memberId : String) : Graph :=
  if hasNode g "GROUP" groupId && hasNode g memberLabel memberId then
    if g.edges.any fun e =>
        e.etype == "MEMBER_OF" && e.fromLabel == memberLabel && e.fromId == memberId &&
          e.toLabel == "GROUP" && e.toId == groupId then g
    else { g with
           edges := g.edges ++ [⟨"MEMBER_OF", memberLabel, memberId, "GROUP", groupId, []⟩] }
  else g

/-! ## The data model of `main.py` -/

/-- `Node` enumeration of `main.py` (a `StrEnum`). -/
inductive Node where
  | SUBSCRIPTION
  | GROUP
  | USER
deriving DecidableEq, Repr

/-- The string value of the `StrEnum` member. -/
def Node.toLabel : Node → String
  | .SUBSCRIPTION => "SUBSCRIPTION"
  | .GROUP => "GROUP"
  | .USER => "USER"

structure SubscriptionNode where
  id : String
  name : String
deriving DecidableEq, Repr

/-- `SubscriptionNode.clean_id`: `self.id.split("/")[-1]`. -/
def SubscriptionNode.clean_id (s : SubscriptionNode) : String :=
  (s.id.splitOn "/").getLastD ""

structure GroupNode where
  id : String
  name : String
deriving DecidableEq, Repr

structure UserNode where
  id : String
  name : String
deriving DecidableEq, Repr

structure Assignment where
  id : String
  subscription_id : String
  role_id : String
  principal_id : String
  principal_type : String
deriving DecidableEq, Repr

/-- `Assignment.principal_node_type` (`main.py`): a case-sensitive `match`
on the raw type tag. -/
def principalNodeType (t : String) : Option Node :=
  match t with
  | "Group" => some .GROUP
  | "User" => some .USER
  | _ => none

def Assignment.principal_node_type (a : Assignment) : Option Node :=
  principalNodeType a.principal_type

/-! ## Graph Writer operations of `main.py` -/

/-- `record_subscriptions`: one `MERGE` per subscription, in list order. -/
def record_subscriptions (g : Graph) (subs : List SubscriptionNode) : Graph :=
  subs.foldl (fun g s => mergeNode g ⟨"SUBSCRIPTION", s.id, s.name⟩) g

/-- `record_groups`: one `MERGE` per group node, in list order. -/
def record_groups (g : Graph) (groups : List GroupNode) : Graph :=
  groups.foldl (fun g gr => mergeNode g ⟨"GROUP", gr.id, gr.name⟩) g

/-- `record_users`: one `MERGE` per user node, in list order. -/
def record_users (g : Graph) (users : List UserNode) : Graph :=
  users.foldl (fun g u => mergeNode g ⟨"USER", u.id, u.name⟩) g

/-- One loop iteration of `record_assignments`: skip an assignment whose
`principal_node_type` is `None`, otherwise `MATCH` both endpoints and
`MERGE` the edge keyed by `(id, role_id)`. -/
def record_assignment_step (g : Graph) (a : Assignment) : Graph :=
  match a.principal_node_type with
  | none => g
  | some pl =>
      mergeAssignEdge g a.subscription_id pl.toLabel a.principal_id a.id a.role_id

/-- `record_assignments`: the loop over the assignment list. -/
def record_assignments (g : Graph) (assigns : List Assignment) : Graph :=
  assigns.foldl record_assignment_step g

/-! ## Generic fold lemmas for idempotence -/

theorem foldl_eq_of_all (step : Graph → α → Graph) (Q : Graph → α → Prop)
    (hstep : ∀ g a, Q g a → step g a = g) :
    ∀ (l : List α) (g : Graph), (∀ a ∈ l, Q g a) → l.foldl step g = g := by
  intro l
  induction l with
  | nil => intro g _; rfl
  | cons a l ih =>
      intro g hall
      have ha : Q g a := hall a (List.mem_cons_self a l)
      simp only [List.foldl_cons, hstep g a ha]
      exact ih g fun b hb => hall b (List.mem_cons_of_mem a hb)

theorem foldl_all_post (step : Graph → α → Graph) (Q : Graph → α → Prop)
    (hmono : ∀ g a b, Q g a → Q (step g b) a)
    (hpost : ∀ g a, Q (step g a) a) :
    ∀ (l : List α) (g : Graph), ∀ a ∈ l, Q (l.foldl step g) a := by
  intro l
  induction l with
  | nil => intro g a ha; cases ha
  | cons b l ih =>
      intro g a ha
      rcases List.mem_cons.mp ha with h | h
      · subst h
        simp only [List.foldl_cons]
        -- after processing `a` first, `Q` holds and is preserved by the rest
        have : ∀ (l : List α) (g : Graph), Q g a → Q (l.foldl step g) a := by
          intro l
          induction l with
          | nil => intro g hg; exact hg
          | cons c l ihc => intro g hg; exact ihc _ (hmono g a c hg)
        exact this l _ (hpost g _)
      · simp only [List.foldl_cons]
        exact ih (step g b) a h

theorem foldl_idem (step : Graph → α → Graph) (Q : Graph → α → Prop)
    (hstep : ∀ g a, Q g a → step g a = g)
    (hmono : ∀ g a b, Q g a → Q (step g b) a)
    (hpost : ∀ g a, Q (step g a) a)
    (l : List α) (g : Graph) :
    l.foldl step (l.foldl step g) = l.foldl step g :=
  foldl_eq_of_all step Q hstep l _ (foldl_all_post step Q hmono hpost l g)

/-! ## Basic lemmas about the merge operations -/

theorem mergeNode_mem (g : Graph) (n : GNode) : n ∈ (mergeNode g n).nodes := by
  unfold mergeNode
  split
  · assumption
  · simp

theorem mergeNode_mem_mono (g : Graph) (n m : GNode) (h : n ∈ g.nodes) :
    n ∈ (mergeNode g m).nodes := by
  unfold mergeNode
  split
  · exact h
  · simp [h]

theorem mergeNode_of_mem (g : Graph) (n : GNode) (h : n ∈ g.nodes) :
    mergeNode g n = g := by
  unfold mergeNode
  simp [h]

theorem mergeNode_edges (g : Graph) (n : GNode) : (mergeNode g n).edges = g.edges := by
  unfold mergeNode
  split <;> rfl

theorem hasNode_congr {g g' : Graph} (h : g'.nodes = g.nodes) (l i : String) :
    hasNode g' l i = hasNode g l i := by
  unfold hasNode
  rw [h]

theorem mergeAssignEdge_nodes (g : Graph) (sid pl pid aid rid : String) :
    (mergeAssignEdge g sid pl pid aid rid).nodes = g.nodes := by
  unfold mergeAssignEdge
  split
  · split <;> rfl
  · rfl

theorem mergeAssignEdge_edges_mono (g : Graph) (sid pl pid aid rid : String)
    {e : GEdge} (h : e ∈ g.edges) : e ∈ (mergeAssignEdge g sid pl pid aid rid).edges := by
  unfold mergeAssignEdge
  split
  · split
    · exact h
    · simp [h]
  · exact h

theorem record_assignment_step_nodes (g : Graph) (a : Assignment) :
    (record_assignment_step g a).nodes = g.nodes := by
  unfold record_assignment_step
  split
  · rfl
  · exact mergeAssignEdge_nodes ..

theorem record_assignment_step_edges_mono (g : Graph) (a : Assignment)
    {e : GEdge} (h : e ∈ g.edges) : e ∈ (record_assignment_step g a).edges := by
  unfold record_assignment_step
  split
  · exact h
  · exact mergeAssignEdge_edges_mono _ _ _ _ _ _ h

/-- The state in which processing assignment `a` is a no-op: either an
endpoint is missing, or the `(id, role_id)`-keyed edge already exists. -/
def assignHandled (g : Graph) (a : Assignment) : Prop :=
  ∀ pl, a.principal_node_type = some pl →
    (hasNode g "SUBSCRIPTION" a.subscription_id && hasNode g pl.toLabel a.principal_id)
        = false ∨
    (g.edges.any fun e =>
        matchAssign e a.subscription_id pl.toLabel a.principal_id a.id a.role_id) = true

theorem assignHandled_step (g : Graph) (a : Assignment) (h : assignHandled g a) :
    record_assignment_step g a = g := by
  unfold record_assignment_step
  split
  · rfl
  · next pl hpl =>
      rcases h pl hpl with hcond | hany
      · unfold mergeAssignEdge
        simp [hcond]
      · unfold mergeAssignEdge
        split
        · simp [hany]
        · rfl

theorem assignHandled_post (g : Graph) (a : Assignment) :
    assignHandled (record_assignment_step g a) a := by
  intro pl hpl
  simp only [record_assignment_step, hpl]
  unfold mergeAssignEdge
  split
  · next hcond =>
      split
      · next hany => right; exact hany
      · right
        simp only [List.any_append, List.any_cons, List.any_nil, Bool.or_false,
          Bool.or_eq_true]
        right
        simp [matchAssign, propsLookup]
  · next hcond =>
      left
      simpa using hcond

theorem assignHandled_mono (g : Graph) (a b : Assignment) (h : assignHandled g a) :
    assignHandled (record_assignment_step g b) a := by
  intro pl hpl
  rcases h pl hpl with hcond | hany
  · left
    rw [hasNode_congr (record_assignment_step_nodes g b),
      hasNode_congr (record_assignment_step_nodes g b)]
    exact hcond
  · right
    rw [List.any_eq_true] at hany ⊢
    rcases hany with ⟨e, he, hme⟩
    exact ⟨e, record_assignment_step_edges_mono g b he, hme⟩

/-- **C1.** Running the full sync twice against the same source data produces
the same final graph as running it once: each Graph Writer operation —
`record_subscriptions` (upsertSubscription), `record_groups` / `record_users`
(upsertPrincipal), `record_assignments` (upsertAssignmentEdge) and
`merge_member_record` (upsertMembershipEdge) — applied a second time with
identical arguments leaves the graph state unchanged: no duplicate nodes or
edges, identical properties. -/
theorem upserts_idempotent (g : Graph) (subs : List SubscriptionNode)
    (groups : List GroupNode) (users : List UserNode) (assigns : List Assignment)
    (gid ml mid : String) :
    record_subscriptions (record_subscriptions g subs) subs = record_subscriptions g subs ∧
    record_groups (record_groups g groups) groups = record_groups g groups ∧
    record_users (record_users g users) users = record_users g users ∧
    record_assignments (record_assignments g assigns) assigns = record_assignments g assigns ∧
    merge_member_record (merge_member_record g gid ml mid) gid ml mid =
      merge_member_record g gid ml mid := by
  refine ⟨?_, ?_, ?_, ?_, ?_⟩
  · refine foldl_idem (fun g s => mergeNode g ⟨"SUBSCRIPTION", s.id, s.name⟩)
      (fun g s => (⟨"SUBSCRIPTION", s.id, s.name⟩ : GNode) ∈ g.nodes) ?_ ?_ ?_ subs g
    · intro g a h; exact mergeNode_of_mem g _ h
    · intro g a b h; exact mergeNode_mem_mono g _ _ h
    · intro g a; exact mergeNode_mem g _
  · refine foldl_idem (fun g gr => mergeNode g ⟨"GROUP", gr.id, gr.name⟩)
      (fun g gr => (⟨"GROUP", gr.id, gr.name⟩ : GNode) ∈ g.nodes) ?_ ?_ ?_ groups g
    · intro g a h; exact mergeNode_of_mem g _ h
    · intro g a b h; exact mergeNode_mem_mono g _ _ h
    · intro g a; exact mergeNode_mem g _
  · refine foldl_idem (fun g u => mergeNode g ⟨"USER", u.id, u.name⟩)
      (fun g u => (⟨"USER", u.id, u.name⟩ : GNode) ∈ g.nodes) ?_ ?_ ?_ users g
    · intro g a h; exact mergeNode_of_mem g _ h
    · intro g a b h; exact mergeNode_mem_mono g _ _ h
    · intro g a; exact mergeNode_mem g _
  · exact foldl_idem record_assignment_step assignHandled
      assignHandled_step assignHandled_mono assignHandled_post assigns g
  · unfold merge_member_record
    split
    · next hcond =>
        split
        · next hany => simp [hcond, hany]
        · next hany =>
            have hn : ∀ l i, hasNode { g with
                edges := g.edges ++ [⟨"MEMBER_OF", ml, mid, "GROUP", gid, []⟩] } l i
                = hasNode g l i := fun l i => rfl
            simp only [hn, hcond, if_true, List.any_append, List.any_cons, List.any_nil]
            simp
    · next hcond => simp [hcond]

/-! ## Assignment listing (`build_assignment_relations` in `main.py`,
`Subscription.fetch_assignments` in `models/subscriptions.py`) -/

/-- A raw role assignment as returned by the role-assignment listing API. -/
structure RawAssignment where
  id : String
  role_definition_id : String
  principal_id : String
  principal_type : String
deriving DecidableEq, Repr

/-- The loop of `build_assignment_relations` (`main.py`): skip (`continue`)
any raw assignment whose `principal_type` is neither `"Group"` nor `"User"`,
otherwise build an `Assignment` carrying the subscription node's `id`. -/
def buildAssignmentRelations (sub : SubscriptionNode) : List RawAssignment → List Assignment
  | [] => []
  | r :: rs =>
      if r.principal_type ≠ "Group" ∧ r.principal_type ≠ "User" then
        buildAssignmentRelations sub rs
      else
        ⟨r.id, sub.id, r.role_definition_id, r.principal_id, r.principal_type⟩ ::
          buildAssignmentRelations sub rs

/-- The membership test of `Subscription.fetch_assignments`
(`models/subscriptions.py`): `i.principal_type not in [t for t in
PrincipalType]`, where `PrincipalType` enumerates `"User"` and `"Group"`. -/
def principal_type_in_enum (t : String) : Bool :=
  t == "User" || t == "Group"

theorem principalNodeType_eq_none {t : String} (h1 : t ≠ "Group") (h2 : t ≠ "User") :
    principalNodeType t = none := by
  unfold principalNodeType
  split
  · exact absurd rfl h1
  · exact absurd rfl h2
  · rfl

theorem buildAssignmentRelations_sub_id (sub : SubscriptionNode) :
    ∀ (raws : List RawAssignment) (a : Assignment),
      a ∈ buildAssignmentRelations sub raws → a.subscription_id = sub.id := by
  intro raws
  induction raws with
  | nil => intro a ha; cases ha
  | cons r rs ih =>
      intro a ha
      unfold buildAssignmentRelations at ha
      split at ha
      · exact ih a ha
      · rcases List.mem_cons.mp ha with h | h
        · subst h; rfl
        · exact ih a h

theorem buildAssignmentRelations_types (sub : SubscriptionNode) :
    ∀ (raws : List RawAssignment) (a : Assignment),
      a ∈ buildAssignmentRelations sub raws →
        a.principal_type = "Group" ∨ a.principal_type = "User" := by
  intro raws
  induction raws with
  | nil => intro a ha; cases ha
  | cons r rs ih =>
      intro a ha
      unfold buildAssignmentRelations at ha
      split at ha
      · exact ih a ha
      · next hcond =>
          rcases List.mem_cons.mp ha with h | h
          · subst h
            simpa using Decidable.not_and_iff_or_not.mp hcond
          · exact ih a h

/-- **C7 counterexample.** Type resolution is not case-insensitive: the raw
tags `"user"` and `"GROUP"` are *not* classified as typed principals — both
`Assignment.principal_node_type` (`main.py`) and the enumeration membership
test of `Subscription.fetch_assignments` (`models/subscriptions.py`) reject
them, while the exact-case tags are accepted. -/
theorem resolve_not_case_insensitive :
    principalNodeType "user" = none ∧ principalNodeType "GROUP" = none ∧
    principal_type_in_enum "user" = false ∧ principal_type_in_enum "GROUP" = false ∧
    principalNodeType "User" = some Node.USER ∧
    principalNodeType "Group" = some Node.GROUP := by
  decide

/-- **C7 (amended).** Principal type resolution maps the source's raw type
tag to User or Group by *case-sensitive* exact match against the fixed
enumeration: only the exact strings `"User"` and `"Group"` are classified;
any other capitalization (e.g. `"user"`, `"GROUP"`) is treated as
unrecognized, in `Assignment.principal_node_type` and in the enumeration
membership test of `Subscription.fetch_assignments` alike. -/
theorem resolve_case_sensitive (t : String) :
    (principalNodeType t = some Node.GROUP ↔ t = "Group") ∧
    (principalNodeType t = some Node.USER ↔ t = "User") ∧
    (principal_type_in_enum t = true ↔ (t = "User" ∨ t = "Group")) := by
  by_cases h1 : t = "Group"
  · subst h1; exact ⟨by decide, by decide, by decide⟩
  · by_cases h2 : t = "User"
    · subst h2; exact ⟨by decide, by decide, by decide⟩
    · have hn := principalNodeType_eq_none h1 h2
      refine ⟨?_, ?_, ?_⟩
      · simp [hn, h1]
      · simp [hn, h2]
      · simp [principal_type_in_enum, h1, h2]

/-- **C8.** An assignment whose principal type tag is neither `User` nor
`Group` (e.g. `"ServicePrincipal"`) is excluded from the output entirely —
removing it from the raw listing does not change the result, so no principal
node and no assignment edge ever derives from it — and the remaining
assignments are processed normally (the function is total: no error). -/
theorem unrecognized_assignment_dropped (sub : SubscriptionNode)
    (raws₁ raws₂ : List RawAssignment) (r : RawAssignment)
    (h1 : r.principal_type ≠ "Group") (h2 : r.principal_type ≠ "User") :
    buildAssignmentRelations sub (raws₁ ++ r :: raws₂) =
      buildAssignmentRelations sub (raws₁ ++ raws₂) ∧
    ∀ a ∈ buildAssignmentRelations sub (raws₁ ++ r :: raws₂),
      a.principal_type = "Group" ∨ a.principal_type = "User" := by
  constructor
  · induction raws₁ with
    | nil =>
        simp only [List.nil_append]
        simp only [buildAssignmentRelations]
        rw [if_pos ⟨h1, h2⟩]
    | cons x xs ih =>
        simp only [List.cons_append]
        simp only [buildAssignmentRelations]
        split
        · exact ih
        · rw [ih]
  · exact buildAssignmentRelations_types sub _

/-- Witness for C8 at a concrete input: a `"ServicePrincipal"` assignment
between a user assignment and a group assignment is dropped. -/
theorem unrecognized_assignment_dropped_witness :
    (("ServicePrincipal" : String) ≠ "Group" ∧ ("ServicePrincipal" : String) ≠ "User") ∧
    (buildAssignmentRelations ⟨"s1", "Prod"⟩
        ([⟨"a1", "r1", "u1", "User"⟩] ++ ⟨"a2", "r2", "sp1", "ServicePrincipal"⟩ ::
          [⟨"a3", "r3", "g1", "Group"⟩]) =
      buildAssignmentRelations ⟨"s1", "Prod"⟩
        ([⟨"a1", "r1", "u1", "User"⟩] ++ [⟨"a3", "r3", "g1", "Group"⟩]) ∧
     ∀ a ∈ buildAssignmentRelations ⟨"s1", "Prod"⟩
        ([⟨"a1", "r1", "u1", "User"⟩] ++ ⟨"a2", "r2", "sp1", "ServicePrincipal"⟩ ::
          [⟨"a3", "r3", "g1", "Group"⟩]),
        a.principal_type = "Group" ∨ a.principal_type = "User") :=
  ⟨⟨by decide, by decide⟩,
    unrecognized_assignment_dropped ⟨"s1", "Prod"⟩ [⟨"a1", "r1", "u1", "User"⟩]
      [⟨"a3", "r3", "g1", "Group"⟩] ⟨"a2", "r2", "sp1", "ServicePrincipal"⟩
      (by decide) (by decide)⟩

/-! ## Principal deduplication (`unique` and the node-building stages of
`main.py`) -/

/-- `unique` (`main.py`): `list(set(items))`.  Python's `set` preserves
membership and removes duplicates; the resulting order is unspecified, so we
model it as `List.dedup` and rely only on membership and duplicate-freeness. -/
def unique (items : List String) : List String :=
  items.dedup

theorem unique_nodup (items : List String) : (unique items).Nodup :=
  items.nodup_dedup

theorem mem_unique {items : List String} {x : String} : x ∈ unique items ↔ x ∈ items :=
  List.mem_dedup

/-- `group_ids` in `main`: ids of assignments whose `principal_type` is
`"Group"`, deduplicated. -/
def groupIdsOf (assigns : List Assignment) : List String :=
  unique ((assigns.filter fun a => a.principal_type == "Group").map (·.principal_id))

/-- `user_ids` in `main`: ids of assignments whose `principal_type` is
`"User"`, deduplicated. -/
def userIdsOf (assigns : List Assignment) : List String :=
  unique ((assigns.filter fun a => a.principal_type == "User").map (·.principal_id))

/-- `build_group_nodes`: one `GroupNode` per id, name fetched from the
directory service (modelled by `gName`). -/
def build_group_nodes (gName : String → String) (ids : List String) : List GroupNode :=
  ids.map fun gid => ⟨gid, gName gid⟩

/-- `build_user_nodes`: one `UserNode` per id, name fetched from the
directory service (modelled by `uName`). -/
def build_user_nodes (uName : String → String) (ids : List String) : List UserNode :=
  ids.map fun uid => ⟨uid, uName uid⟩

/-- The node-writing stages of `main`, in their execution order:
subscriptions, then groups, then users, starting from an empty store. -/
def record_node_stages (subs : List SubscriptionNode) (assigns : List Assignment)
    (gName uName : String → String) : Graph :=
  record_users
    (record_groups (record_subscriptions Graph.empty subs)
      (build_group_nodes gName (groupIdsOf assigns)))
    (build_user_nodes uName (userIdsOf assigns))

/-- Number of stored nodes carrying a given label and id. -/
def countNodes (g : Graph) (label id : String) : Nat :=
  (g.nodes.filter fun n => n.label == label && n.id == id).length

theorem countNodes_mergeNode_other (g : Graph) (n : GNode) (label id : String)
    (h : ¬(n.label = label ∧ n.id = id)) :
    countNodes (mergeNode g n) label id = countNodes g label id := by
  unfold mergeNode
  split
  · rfl
  · unfold countNodes
    simp only [List.filter_append, List.length_append]
    have : (n.label == label && n.id == id) = false := by
      rcases Decidable.not_and_iff_or_not.mp h with h' | h' <;> simp [h']
    simp [this]

theorem countNodes_mergeNode_new (g : Graph) (n : GNode) (label idv : String)
    (hl : n.label = label) (hi : n.id = idv)
    (h0 : countNodes g label idv = 0) :
    countNodes (mergeNode g n) label idv = 1 := by
  have hnot : n ∉ g.nodes := by
    intro hmem
    have hmem2 : n ∈ g.nodes.filter fun m => m.label == label && m.id == idv := by
      apply List.mem_filter.mpr
      exact ⟨hmem, by simp [hl, hi]⟩
    have := List.length_pos.mpr (List.ne_nil_of_mem hmem2)
    unfold countNodes at h0
    omega
  unfold mergeNode
  rw [if_neg hnot]
  unfold countNodes at h0 ⊢
  simp only [List.filter_append, List.length_append, h0]
  simp [hl, hi]

theorem record_groups_build_cons (g : Graph) (gName : String → String)
    (x : String) (xs : List String) :
    record_groups g (build_group_nodes gName (x :: xs)) =
      record_groups (mergeNode g ⟨"GROUP", x, gName x⟩) (build_group_nodes gName xs) := rfl

theorem countNodes_record_groups_not_mem (gName : String → String) :
    ∀ (ids : List String) (g : Graph) (pid : String), pid ∉ ids →
      countNodes (record_groups g (build_group_nodes gName ids)) "GROUP" pid
        = countNodes g "GROUP" pid := by
  intro ids
  induction ids with
  | nil => intro g pid _; rfl
  | cons x xs ih =>
      intro g pid hpid
      rw [record_groups_build_cons]
      have hx : x ≠ pid := fun h => hpid (h ▸ List.mem_cons_self x xs)
      rw [ih _ pid fun h => hpid (List.mem_cons_of_mem x h)]
      exact countNodes_mergeNode_other _ _ _ _ (by simp [hx])

theorem countNodes_record_groups (gName : String → String) :
    ∀ (ids : List String) (g : Graph) (pid : String), ids.Nodup →
      countNodes g "GROUP" pid = 0 → pid ∈ ids →
      countNodes (record_groups g (build_group_nodes gName ids)) "GROUP" pid = 1 := by
  intro ids
  induction ids with
  | nil => intro g pid _ _ h; cases h
  | cons x xs ih =>
      intro g pid hnd h0 hmem
      rw [record_groups_build_cons]
      rcases List.mem_cons.mp hmem with h | h
      · subst h
        have hnotin : pid ∉ xs := (List.nodup_cons.mp hnd).1
        rw [countNodes_record_groups_not_mem gName xs _ pid hnotin]
        exact countNodes_mergeNode_new _ _ _ _ rfl rfl h0
      · have hx : x ≠ pid := by
          intro he
          exact (List.nodup_cons.mp hnd).1 (he ▸ h)
        have h0' : countNodes (mergeNode g ⟨"GROUP", x, gName x⟩) "GROUP" pid = 0 := by
          rw [countNodes_mergeNode_other _ _ _ _ (by simp [hx])]
          exact h0
        exact ih _ pid (List.nodup_cons.mp hnd).2 h0' h

theorem record_users_build_cons (g : Graph) (uName : String → String)
    (x : String) (xs : List String) :
    record_users g (build_user_nodes uName (x :: xs)) =
      record_users (mergeNode g ⟨"USER", x, uName x⟩) (build_user_nodes uName xs) := rfl

theorem countNodes_record_users_not_mem (uName : String → String) :
    ∀ (ids : List String) (g : Graph) (pid : String), pid ∉ ids →
      countNodes (record_users g (build_user_nodes uName ids)) "USER" pid
        = countNodes g "USER" pid := by
  intro ids
  induction ids with
  | nil => intro g pid _; rfl
  | cons x xs ih =>
      intro g pid hpid
      rw [record_users_build_cons]
      have hx : x ≠ pid := fun h => hpid (h ▸ List.mem_cons_self x xs)
      rw [ih _ pid fun h => hpid (List.mem_cons_of_mem x h)]
      exact countNodes_mergeNode_other _ _ _ _ (by simp [hx])

theorem countNodes_record_users (uName : String → String) :
    ∀ (ids : List String) (g : Graph) (pid : String), ids.Nodup →
      countNodes g "USER" pid = 0 → pid ∈ ids →
      countNodes (record_users g (build_user_nodes uName ids)) "USER" pid = 1 := by
  intro ids
  induction ids with
  | nil => intro g pid _ _ h; cases h
  | cons x xs ih =>
      intro g pid hnd h0 hmem
      rw [record_users_build_cons]
      rcases List.mem_cons.mp hmem with h | h
      · subst h
        have hnotin : pid ∉ xs := (List.nodup_cons.mp hnd).1
        rw [countNodes_record_users_not_mem uName xs _ pid hnotin]
        exact countNodes_mergeNode_new _ _ _ _ rfl rfl h0
      · have hx : x ≠ pid := by
          intro he
          exact (List.nodup_cons.mp hnd).1 (he ▸ h)
        have h0' : countNodes (mergeNode g ⟨"USER", x, uName x⟩) "USER" pid = 0 := by
          rw [countNodes_mergeNode_other _ _ _ _ (by simp [hx])]
          exact h0
        exact ih _ pid (List.nodup_cons.mp hnd).2 h0' h

theorem countNodes_record_subscriptions_other (label pid : String)
    (h : label ≠ "SUBSCRIPTION") :
    ∀ (subs : List SubscriptionNode) (g : Graph),
      countNodes (record_subscriptions g subs) label pid = countNodes g label pid := by
  intro subs
  induction subs with
  | nil => intro g; rfl
  | cons s ss ih =>
      intro g
      show countNodes (record_subscriptions (mergeNode g ⟨"SUBSCRIPTION", s.id, s.name⟩) ss)
        label pid = _
      rw [ih]
      exact countNodes_mergeNode_other _ _ _ _ fun hc => h hc.1.symm

theorem countNodes_record_groups_other (label pid : String) (h : label ≠ "GROUP")
    (gName : String → String) :
    ∀ (ids : List String) (g : Graph),
      countNodes (record_groups g (build_group_nodes gName ids)) label pid
        = countNodes g label pid := by
  intro ids
  induction ids with
  | nil => intro g; rfl
  | cons x xs ih =>
      intro g
      rw [record_groups_build_cons, ih]
      exact countNodes_mergeNode_other _ _ _ _ fun hc => h hc.1.symm

theorem countNodes_record_users_other (label pid : String) (h : label ≠ "USER")
    (uName : String → String) :
    ∀ (ids : List String) (g : Graph),
      countNodes (record_users g (build_user_nodes uName ids)) label pid
        = countNodes g label pid := by
  intro ids
  induction ids with
  | nil => intro g; rfl
  | cons x xs ih =>
      intro g
      rw [record_users_build_cons, ih]
      exact countNodes_mergeNode_other _ _ _ _ fun hc => h hc.1.symm

/-- **C4.** Two or more assignments referencing the same principal
`(type, id)` pair — from the same or different subscriptions — result in
exactly one principal node for that pair after the node-writing stages of
the sync: the node lists are keyed by `(type, id)` via `unique`. -/
theorem principal_nodes_deduplicated (subs : List SubscriptionNode)
    (assigns : List Assignment) (gName uName : String → String) (pid : String) :
    ((∃ a ∈ assigns, a.principal_type = "Group" ∧ a.principal_id = pid) →
      countNodes (record_node_stages subs assigns gName uName) "GROUP" pid = 1) ∧
    ((∃ a ∈ assigns, a.principal_type = "User" ∧ a.principal_id = pid) →
      countNodes (record_node_stages subs assigns gName uName) "USER" pid = 1) := by
  constructor
  · intro hmem
    unfold record_node_stages
    rw [countNodes_record_users_other "GROUP" pid (by decide) uName]
    apply countNodes_record_groups gName _ _ pid (unique_nodup _)
    · rw [countNodes_record_subscriptions_other "GROUP" pid (by decide)]
      rfl
    · apply mem_unique.mpr
      rcases hmem with ⟨a, ha, ht, hp⟩
      exact List.mem_map.mpr
        ⟨a, List.mem_filter.mpr ⟨ha, by simp [ht]⟩, hp⟩
  · intro hmem
    unfold record_node_stages
    apply countNodes_record_users uName _ _ pid (unique_nodup _)
    · rw [countNodes_record_groups_other "USER" pid (by decide) gName,
        countNodes_record_subscriptions_other "USER" pid (by decide)]
      rfl
    · apply mem_unique.mpr
      rcases hmem with ⟨a, ha, ht, hp⟩
      exact List.mem_map.mpr
        ⟨a, List.mem_filter.mpr ⟨ha, by simp [ht]⟩, hp⟩

/-- Witness for C4 at a concrete input: two assignments from different
subscriptions referencing the group `g1` produce exactly one `GROUP` node. -/
theorem principal_nodes_deduplicated_witness :
    (∃ a ∈ [(⟨"a1", "s1", "r1", "g1", "Group"⟩ : Assignment),
            ⟨"a2", "s2", "r2", "g1", "Group"⟩],
        a.principal_type = "Group" ∧ a.principal_id = "g1") ∧
    countNodes
      (record_node_stages [⟨"s1", "One"⟩, ⟨"s2", "Two"⟩]
        [⟨"a1", "s1", "r1", "g1", "Group"⟩, ⟨"a2", "s2", "r2", "g1", "Group"⟩]
        (fun _ => "Admins") (fun _ => ""))
      "GROUP" "g1" = 1 :=
  ⟨by decide,
    (principal_nodes_deduplicated [⟨"s1", "One"⟩, ⟨"s2", "Two"⟩]
      [⟨"a1", "s1", "r1", "g1", "Group"⟩, ⟨"a2", "s2", "r2", "g1", "Group"⟩]
      (fun _ => "Admins") (fun _ => "") "g1").1 (by decide)⟩

/-! ## `PrincipalInterface.merge_record` (`models/principals.py`) -/

/-- `PrincipalType` StrEnum of `models/principals.py`. -/
inductive PrincipalType where
  | USER
  | GROUP
deriving DecidableEq, Repr

/-- The StrEnum member's string value. -/
def PrincipalType.value : PrincipalType → String
  | .USER => "User"
  | .GROUP => "Group"

/-- `self.principal_type.upper()`, the node label used in the queries. -/
def PrincipalType.upperValue : PrincipalType → String
  | .USER => "USER"
  | .GROUP => "GROUP"

/-- A principal as seen by `PrincipalInterface`: the subclass dispatch
(`UserPrincipal` / `GroupPrincipal`) is the `ptype` tag; `identifier` and
`name` are the instance fields. -/
structure PrincipalInterface where
  ptype : PrincipalType
  identifier : String
  name : String
deriving DecidableEq, Repr

/-- `PrincipalInterface.merge_record`: inside one transaction, run the
search `MATCH (n:LABEL {id: identifier}) RETURN n`; if it returns a row,
`return` — the `with` block closes the transaction without `commit`, so no
write is applied; otherwise run the `MERGE` and `commit`. -/
def PrincipalInterface.merge_record (p : PrincipalInterface) (g : Graph) : Graph :=
  if hasNode g p.ptype.upperValue p.identifier then g
  else mergeNode g ⟨p.ptype.upperValue, p.identifier, p.name⟩

/-- **C10.** If a node with the principal's `(type, id)` already exists,
`merge_record` leaves the graph — in particular that node's `name`
property — entirely unchanged, whatever (possibly newer, non-empty) name
the principal carries: the search-hit branch returns before any write is
committed.  Only when no such node exists is a node created (carrying the
principal's name). -/
theorem merge_record_frame (g : Graph) (p : PrincipalInterface)
    (h : hasNode g p.ptype.upperValue p.identifier = true) :
    p.merge_record g = g := by
  unfold PrincipalInterface.merge_record
  rw [if_pos h]

/-- Witness for C10 at a concrete input: a stored `USER` node with name
`"Old"` survives a `merge_record` of the same principal carrying the newer
name `"New"`; the graph is unchanged. -/
theorem merge_record_frame_witness :
    hasNode ⟨[⟨"USER", "u1", "Old"⟩], []⟩
        (PrincipalInterface.ptype ⟨.USER, "u1", "New"⟩).upperValue
        (PrincipalInterface.identifier ⟨.USER, "u1", "New"⟩) = true ∧
    PrincipalInterface.merge_record ⟨.USER, "u1", "New"⟩ ⟨[⟨"USER", "u1", "Old"⟩], []⟩
      = ⟨[⟨"USER", "u1", "Old"⟩], []⟩ :=
  ⟨by decide, merge_record_frame ⟨[⟨"USER", "u1", "Old"⟩], []⟩ ⟨.USER, "u1", "New"⟩ (by decide)⟩

/-! ## Role-name annotation (`update_role_name_records` in `main.py`) -/

/-- The undirected `MATCH` pattern of `update_role_name_records`:
`(:SUBSCRIPTION {id: sid})-[r:ASSIGNMENT {id: aid, role_id: rid}]-(:plabel
{id: pid})` — the relationship may run in either direction. -/
def matchAssignUndirected (e : GEdge) (sid plabel pid aid rid : String) : Bool :=
  e.etype == "ASSIGNMENT" &&
    propsLookup e.props "id" == some aid && propsLookup e.props "role_id" == some rid &&
    ((e.fromLabel == "SUBSCRIPTION" && e.fromId == sid &&
        e.toLabel == plabel && e.toId == pid) ||
     (e.toLabel == "SUBSCRIPTION" && e.toId == sid &&
        e.fromLabel == plabel && e.fromId == pid))

/-- `SET r.role_name = v` on one property map. -/
def setProp (props : List (String × String)) (k v : String) : List (String × String) :=
  if props.any fun p => p.1 == k then
    props.map fun p => if p.1 == k then (k, v) else p
  else props ++ [(k, v)]

/-- One `MATCH ... SET r.role_name = ...` query: update every matched
edge. -/
def set_role_name (g : Graph) (sid plabel pid aid rid rname : String) : Graph :=
  { g with
    edges := g.edges.map fun e =>
      if matchAssignUndirected e sid plabel pid aid rid then
        { e with props := setProp e.props "role_name" rname }
      else e }

/-- One loop iteration of `update_role_name_records`: skip unrecognized
principal types, fetch the role name (modelled by `rName`, keyed by
subscription and role-definition id as in `Assignment.fetch_role_name`),
then run the `SET` query keyed by `(id, role_id)`. -/
def update_role_name_step (rName : String → String → String) (g : Graph)
    (a : Assignment) : Graph :=
  match a.principal_node_type with
  | none => g
  | some pl =>
      set_role_name g a.subscription_id pl.toLabel a.principal_id a.id a.role_id
        (rName a.subscription_id a.role_id)

/-- `update_role_name_records`: the loop over the assignment list. -/
def update_role_name_records (rName : String → String → String) (g : Graph)
    (assigns : List Assignment) : Graph :=
  assigns.foldl (update_role_name_step rName) g

/-- An `ASSIGNMENT` edge carries the store key `(id, role_id)`. -/
def edgeHasKey (e : GEdge) (aid rid : String) : Bool :=
  e.etype == "ASSIGNMENT" && propsLookup e.props "id" == some aid &&
    propsLookup e.props "role_id" == some rid

/-- Number of stored `ASSIGNMENT` edges carrying the store key
`(id, role_id)`. -/
def countEdgesKey (g : Graph) (aid rid : String) : Nat :=
  (g.edges.filter fun e => edgeHasKey e aid rid).length

theorem edgeHasKey_false_of_countKey_zero (g : Graph) (aid rid : String)
    (h : countEdgesKey g aid rid = 0) :
    ∀ e ∈ g.edges, edgeHasKey e aid rid = false := by
  intro e he
  by_contra hne
  have hk : edgeHasKey e aid rid = true := by
    cases hb : edgeHasKey e aid rid
    · exact absurd hb hne
    · rfl
  have hmem : e ∈ g.edges.filter fun e => edgeHasKey e aid rid :=
    List.mem_filter.mpr ⟨he, hk⟩
  have hpos := List.length_pos.mpr (List.ne_nil_of_mem hmem)
  unfold countEdgesKey at h
  omega

theorem edgeHasKey_of_matchAssign {e : GEdge} {sid plabel pid aid rid : String}
    (hm : matchAssign e sid plabel pid aid rid = true) :
    edgeHasKey e aid rid = true := by
  unfold matchAssign at hm
  simp only [Bool.and_eq_true] at hm
  unfold edgeHasKey
  simp only [Bool.and_eq_true]
  exact ⟨⟨hm.1.1.1.1.1.1, hm.1.2⟩, hm.2⟩

theorem edgeHasKey_of_matchUndirected {e : GEdge} {sid plabel pid aid rid : String}
    (hm : matchAssignUndirected e sid plabel pid aid rid = true) :
    edgeHasKey e aid rid = true := by
  unfold matchAssignUndirected at hm
  simp only [Bool.and_eq_true] at hm
  unfold edgeHasKey
  simp only [Bool.and_eq_true]
  exact ⟨⟨hm.1.1.1, hm.1.1.2⟩, hm.1.2⟩

theorem any_matchAssign_false_of_countKey_zero (g : Graph)
    (sid plabel pid aid rid : String) (h : countEdgesKey g aid rid = 0) :
    (g.edges.any fun e => matchAssign e sid plabel pid aid rid) = false := by
  rw [List.any_eq_false]
  intro e he hm
  have := edgeHasKey_false_of_countKey_zero g aid rid h e he
  rw [edgeHasKey_of_matchAssign hm] at this
  cases this

theorem propsLookup_id_pair (x y : String) :
    propsLookup [("id", x), ("role_id", y)] "id" = some x := rfl

theorem propsLookup_role_pair (x y : String) :
    propsLookup [("id", x), ("role_id", y)] "role_id" = some y := rfl

theorem propsLookup_roleName_pair (x y : String) :
    propsLookup [("id", x), ("role_id", y)] "role_name" = none := rfl

theorem propsLookup_roleName_triple (x y v : String) :
    propsLookup [("id", x), ("role_id", y), ("role_name", v)] "role_name" = some v := rfl

theorem setProp_pair (x y v : String) :
    setProp [("id", x), ("role_id", y)] "role_name" v
      = [("id", x), ("role_id", y), ("role_name", v)] := rfl

theorem edgeHasKey_pair (sid pl pid x y : String) :
    edgeHasKey ⟨"ASSIGNMENT", "SUBSCRIPTION", sid, pl, pid, [("id", x), ("role_id", y)]⟩ x y
      = true := by
  simp [edgeHasKey, propsLookup_id_pair, propsLookup_role_pair]

theorem edgeHasKey_pair_ne_role (sid pl pid x y y' : String) (h : y ≠ y') :
    edgeHasKey ⟨"ASSIGNMENT", "SUBSCRIPTION", sid, pl, pid, [("id", x), ("role_id", y)]⟩ x y'
      = false := by
  simp [edgeHasKey, propsLookup_id_pair, propsLookup_role_pair, h]

/-- **C5.** Two assignments with the same `id` but different
`roleDefinitionId` produce two distinct `ASSIGNMENT` edges keyed by
`(assignmentId, roleDefinitionId)` — one per key, not one overwritten edge —
and `update_role_name_records` locates the edge to annotate by this same
key: after annotating the first assignment, every `(id, role_id₁)`-keyed
edge carries its role name while every `(id, role_id₂)`-keyed edge is left
without one. -/
theorem assignment_edges_distinct_by_role (g : Graph) (a1 a2 : Assignment)
    (pl1 pl2 : Node) (rName : String → String → String)
    (h1 : a1.principal_node_type = some pl1)
    (h2 : a2.principal_node_type = some pl2)
    (hs1 : hasNode g "SUBSCRIPTION" a1.subscription_id = true)
    (hp1 : hasNode g pl1.toLabel a1.principal_id = true)
    (hs2 : hasNode g "SUBSCRIPTION" a2.subscription_id = true)
    (hp2 : hasNode g pl2.toLabel a2.principal_id = true)
    (hid : a2.id = a1.id)
    (hrid : a1.role_id ≠ a2.role_id)
    (hc1 : countEdgesKey g a1.id a1.role_id = 0)
    (hc2 : countEdgesKey g a1.id a2.role_id = 0) :
    countEdgesKey (record_assignments g [a1, a2]) a1.id a1.role_id = 1 ∧
    countEdgesKey (record_assignments g [a1, a2]) a1.id a2.role_id = 1 ∧
    (∀ e ∈ (update_role_name_records rName (record_assignments g [a1, a2]) [a1]).edges,
        edgeHasKey e a1.id a1.role_id = true →
          propsLookup e.props "role_name" = some (rName a1.subscription_id a1.role_id)) ∧
    (∀ e ∈ (update_role_name_records rName (record_assignments g [a1, a2]) [a1]).edges,
        edgeHasKey e a1.id a2.role_id = true →
          propsLookup e.props "role_name" = none) := by
  -- the two created edges
  set e1 : GEdge := ⟨"ASSIGNMENT", "SUBSCRIPTION", a1.subscription_id, pl1.toLabel,
    a1.principal_id, [("id", a1.id), ("role_id", a1.role_id)]⟩ with he1
  set e2 : GEdge := ⟨"ASSIGNMENT", "SUBSCRIPTION", a2.subscription_id, pl2.toLabel,
    a2.principal_id, [("id", a2.id), ("role_id", a2.role_id)]⟩ with he2
  have hc2' : countEdgesKey g a2.id a2.role_id = 0 := by rw [hid]; exact hc2
  -- the first merge appends e1
  have hstep1 : record_assignment_step g a1 = { g with edges := g.edges ++ [e1] } := by
    simp only [record_assignment_step, h1]
    unfold mergeAssignEdge
    rw [hs1, hp1, any_matchAssign_false_of_countKey_zero g a1.subscription_id pl1.toLabel
      a1.principal_id a1.id a1.role_id hc1]
    simp [he1]
  -- the second merge appends e2: its key differs from e1's in `role_id`
  have hm12 : matchAssign e1 a2.subscription_id pl2.toLabel a2.principal_id a2.id
      a2.role_id = false := by
    have hr : propsLookup e1.props "role_id" = some a1.role_id := propsLookup_role_pair ..
    simp [matchAssign, hr, hrid]
  have hstep2 : record_assignment_step { g with edges := g.edges ++ [e1] } a2
      = { g with edges := g.edges ++ [e1, e2] } := by
    simp only [record_assignment_step, h2]
    unfold mergeAssignEdge
    have hs2' : hasNode { g with edges := g.edges ++ [e1] } "SUBSCRIPTION"
        a2.subscription_id = true := hs2
    have hp2' : hasNode { g with edges := g.edges ++ [e1] } pl2.toLabel
        a2.principal_id = true := hp2
    rw [hs2', hp2']
    have hany : (({ g with edges := g.edges ++ [e1] } : Graph).edges.any fun e =>
        matchAssign e a2.subscription_id pl2.toLabel a2.principal_id a2.id a2.role_id)
        = false := by
      show ((g.edges ++ [e1]).any fun e =>
        matchAssign e a2.subscription_id pl2.toLabel a2.principal_id a2.id a2.role_id) = false
      rw [List.any_append]
      rw [any_matchAssign_false_of_countKey_zero g a2.subscription_id pl2.toLabel
        a2.principal_id a2.id a2.role_id hc2']
      simp [hm12]
    rw [hany]
    simp [he2]
  have hg1 : record_assignments g [a1, a2] = { g with edges := g.edges ++ [e1, e2] } := by
    show record_assignment_step (record_assignment_step g a1) a2 = _
    rw [hstep1, hstep2]
  -- key membership of the two new edges
  have hk11 : edgeHasKey e1 a1.id a1.role_id = true := edgeHasKey_pair ..
  have hk12 : edgeHasKey e1 a1.id a2.role_id = false := edgeHasKey_pair_ne_role _ _ _ _ _ _ hrid
  have hk22 : edgeHasKey e2 a1.id a2.role_id = true := by
    rw [he2, hid]; exact edgeHasKey_pair ..
  have hk21 : edgeHasKey e2 a1.id a1.role_id = false := by
    rw [he2, hid]; exact edgeHasKey_pair_ne_role _ _ _ _ _ _ (Ne.symm hrid)
  have hcount1 : countEdgesKey { g with edges := g.edges ++ [e1, e2] } a1.id a1.role_id
      = 1 := by
    unfold countEdgesKey at hc1 ⊢
    simp only [List.filter_append, List.length_append, hc1]
    simp [List.filter, hk11, hk21]
  have hcount2 : countEdgesKey { g with edges := g.edges ++ [e1, e2] } a1.id a2.role_id
      = 1 := by
    unfold countEdgesKey at hc2 ⊢
    simp only [List.filter_append, List.length_append, hc2]
    simp [List.filter, hk12, hk22]
  -- the SET stage
  have hmu1 : matchAssignUndirected e1 a1.subscription_id pl1.toLabel a1.principal_id
      a1.id a1.role_id = true := by
    have hi : propsLookup e1.props "id" = some a1.id := propsLookup_id_pair ..
    have hr : propsLookup e1.props "role_id" = some a1.role_id := propsLookup_role_pair ..
    simp [matchAssignUndirected, hi, hr, he1]
  have hmu2 : matchAssignUndirected e2 a1.subscription_id pl1.toLabel a1.principal_id
      a1.id a1.role_id = false := by
    have hr : propsLookup e2.props "role_id" = some a2.role_id := propsLookup_role_pair ..
    simp [matchAssignUndirected, hr, Ne.symm hrid]
  have hupd : update_role_name_records rName { g with edges := g.edges ++ [e1, e2] } [a1]
      = { g with edges := g.edges ++
          [⟨"ASSIGNMENT", "SUBSCRIPTION", a1.subscription_id, pl1.toLabel, a1.principal_id,
            [("id", a1.id), ("role_id", a1.role_id),
             ("role_name", rName a1.subscription_id a1.role_id)]⟩, e2] } := by
    show update_role_name_step rName { g with edges := g.edges ++ [e1, e2] } a1 = _
    simp only [update_role_name_step, h1]
    unfold set_role_name
    have hmap : (g.edges ++ [e1, e2]).map (fun e =>
        if matchAssignUndirected e a1.subscription_id pl1.toLabel a1.principal_id
            a1.id a1.role_id then
          { e with props := setProp e.props "role_name" (rName a1.subscription_id a1.role_id) }
        else e)
        = g.edges ++
          [⟨"ASSIGNMENT", "SUBSCRIPTION", a1.subscription_id, pl1.toLabel, a1.principal_id,
            [("id", a1.id), ("role_id", a1.role_id),
             ("role_name", rName a1.subscription_id a1.role_id)]⟩, e2] := by
      rw [List.map_append]
      have hold : g.edges.map (fun e =>
          if matchAssignUndirected e a1.subscription_id pl1.toLabel a1.principal_id
              a1.id a1.role_id then
            { e with props := setProp e.props "role_name" (rName a1.subscription_id a1.role_id) }
          else e) = g.edges := by
        rw [show g.edges = g.edges.map (fun e => e) by simp]
        rw [List.map_map]
        apply List.map_congr_left
        intro e he
        have hf := edgeHasKey_false_of_countKey_zero g a1.id a1.role_id hc1 e he
        have : matchAssignUndirected e a1.subscription_id pl1.toLabel a1.principal_id
            a1.id a1.role_id = false := by
          cases hb : matchAssignUndirected e a1.subscription_id pl1.toLabel a1.principal_id
            a1.id a1.role_id
          · rfl
          · rw [edgeHasKey_of_matchUndirected hb] at hf; cases hf
        simp [this]
      rw [hold]
      simp only [List.map_cons, List.map_nil, hmu1, hmu2, if_true, if_false]
      simp [setProp_pair]
    rw [hmap]
  rw [hg1, hupd]
  refine ⟨hcount1, hcount2, ?_, ?_⟩
  · intro e he hk
    simp only [List.mem_append, List.mem_cons, List.mem_singleton] at he
    rcases he with he | he | he | he
    · have hf := edgeHasKey_false_of_countKey_zero g a1.id a1.role_id hc1 e he
      rw [hk] at hf; cases hf
    · subst he; exact propsLookup_roleName_triple ..
    · subst he; rw [hk21] at hk; cases hk
    · cases he
  · intro e he hk
    simp only [List.mem_append, List.mem_cons, List.mem_singleton] at he
    rcases he with he | he | he | he
    · have hf := edgeHasKey_false_of_countKey_zero g a1.id a2.role_id hc2 e he
      rw [hk] at hf; cases hf
    · subst he
      have : edgeHasKey ⟨"ASSIGNMENT", "SUBSCRIPTION", a1.subscription_id, pl1.toLabel,
          a1.principal_id, [("id", a1.id), ("role_id", a1.role_id),
            ("role_name", rName a1.subscription_id a1.role_id)]⟩ a1.id a2.role_id
          = false := by
        simp [edgeHasKey, propsLookup, hrid]
      rw [this] at hk; cases hk
    · subst he; exact propsLookup_roleName_pair ..
    · cases he

/-- Concrete store for the C5 witness: both endpoint nodes present, no
edges. -/
def roleChangeGraph : Graph :=
  ⟨[⟨"SUBSCRIPTION", "s1", "Prod"⟩, ⟨"GROUP", "p1", "Admins"⟩], []⟩

/-- First assignment of the C5 witness: id `a`, role `r1`. -/
def roleChangeA1 : Assignment := ⟨"a", "s1", "r1", "p1", "Group"⟩

/-- Second assignment of the C5 witness: same id `a`, role `r2`. -/
def roleChangeA2 : Assignment := ⟨"a", "s1", "r2", "p1", "Group"⟩

/-- Witness for C5 at a concrete input: a role change on assignment id `a`
(from `r1` to `r2`) yields one edge per `(id, role_id)` key, and annotating
the first assignment writes `role_name` only on the `(a, r1)` edge. -/
theorem assignment_edges_distinct_by_role_witness :
    (("r1" : String) ≠ "r2" ∧
     countEdgesKey roleChangeGraph "a" "r1" = 0 ∧
     countEdgesKey roleChangeGraph "a" "r2" = 0) ∧
    (countEdgesKey (record_assignments roleChangeGraph [roleChangeA1, roleChangeA2])
        "a" "r1" = 1 ∧
     countEdgesKey (record_assignments roleChangeGraph [roleChangeA1, roleChangeA2])
        "a" "r2" = 1 ∧
     (∀ e ∈ (update_role_name_records (fun _ _ => "Owner")
          (record_assignments roleChangeGraph [roleChangeA1, roleChangeA2])
          [roleChangeA1]).edges,
        edgeHasKey e "a" "r1" = true →
          propsLookup e.props "role_name" = some "Owner") ∧
     (∀ e ∈ (update_role_name_records (fun _ _ => "Owner")
          (record_assignments roleChangeGraph [roleChangeA1, roleChangeA2])
          [roleChangeA1]).edges,
        edgeHasKey e "a" "r2" = true →
          propsLookup e.props "role_name" = none)) :=
  ⟨⟨by decide, by decide, by decide⟩,
   assignment_edges_distinct_by_role roleChangeGraph roleChangeA1 roleChangeA2
     .GROUP .GROUP (fun _ _ => "Owner") (by decide) (by decide) (by decide) (by decide)
     (by decide) (by decide) (by decide) (by decide) (by decide) (by decide)⟩

/-! ## The orchestrator's write order (`main` in `main.py`) -/

theorem principalNodeType_group_inv {t : String}
    (h : principalNodeType t = some Node.GROUP) : t = "Group" := by
  unfold principalNodeType at h
  split at h
  · rfl
  · simp at h
  · cases h

theorem principalNodeType_user_inv {t : String}
    (h : principalNodeType t = some Node.USER) : t = "User" := by
  unfold principalNodeType at h
  split at h
  · simp at h
  · rfl
  · cases h

theorem principalNodeType_ne_subscription (t : String) :
    principalNodeType t ≠ some Node.SUBSCRIPTION := by
  unfold principalNodeType
  split <;> simp

/-- One write issued by `main`, in the order `session.execute_write` runs
them: a node `MERGE`, an `ASSIGNMENT`-edge `MERGE`, or a role-name `SET`. -/
inductive WOp where
  | node (label id name : String)
  | edge (subId plabel pid aid rid : String)
  | annot (subId plabel pid aid rid rname : String)
deriving DecidableEq, Repr

def WOp.isNode : WOp → Bool
  | .node .. => true
  | _ => false

def WOp.isEdge : WOp → Bool
  | .edge .. => true
  | _ => false

def WOp.isAnnot : WOp → Bool
  | .annot .. => true
  | _ => false

/-- The assignments listed by `main`'s loop over subscriptions:
`build_assignment_relations` is called per subscription (the Azure client is
opened on `clean_id`, modelled by `fetch`). -/
def listedAssignments (subs : List SubscriptionNode)
    (fetch : String → List RawAssignment) : List Assignment :=
  subs.flatMap fun s => buildAssignmentRelations s (fetch s.clean_id)

/-- The sequence of graph writes issued by `main`, in program order:
subscription nodes (`record_subscriptions`), then group nodes
(`record_groups`), then user nodes (`record_users`), then assignment edges
(`record_assignments`), then role-name annotations
(`update_role_name_records`).  Assignments with unrecognized principal
types are skipped in the last two stages. -/
def mainTrace (subs : List SubscriptionNode) (fetch : String → List RawAssignment)
    (gName uName : String → String) (rName : String → String → String) : List WOp :=
  (subs.map fun s => WOp.node "SUBSCRIPTION" s.id s.name) ++
  ((groupIdsOf (listedAssignments subs fetch)).map fun gid =>
    WOp.node "GROUP" gid (gName gid)) ++
  ((userIdsOf (listedAssignments subs fetch)).map fun uid =>
    WOp.node "USER" uid (uName uid)) ++
  ((listedAssignments subs fetch).filterMap fun a =>
    (a.principal_node_type).map fun pl =>
      WOp.edge a.subscription_id pl.toLabel a.principal_id a.id a.role_id) ++
  ((listedAssignments subs fetch).filterMap fun a =>
    (a.principal_node_type).map fun pl =>
      WOp.annot a.subscription_id pl.toLabel a.principal_id a.id a.role_id
        (rName a.subscription_id a.role_id))

/-- **C3.** The orchestrator writes in stage order: the trace decomposes as
node writes, then assignment-edge writes, then role-name annotations — each
stage complete before the next begins — and every assignment edge's two
endpoint nodes are written in the node stage, before the edge. -/
theorem sync_write_ordering (subs : List SubscriptionNode)
    (fetch : String → List RawAssignment) (gName uName : String → String)
    (rName : String → String → String) :
    ∃ N E A,
      mainTrace subs fetch gName uName rName = N ++ E ++ A ∧
      (∀ op ∈ N, op.isNode = true) ∧
      (∀ op ∈ E, op.isEdge = true) ∧
      (∀ op ∈ A, op.isAnnot = true) ∧
      (∀ sid pl pid aid rid, WOp.edge sid pl pid aid rid ∈ E →
        (∃ nm, WOp.node "SUBSCRIPTION" sid nm ∈ N) ∧
        (∃ nm, WOp.node pl pid nm ∈ N)) := by
  refine ⟨(subs.map fun s => WOp.node "SUBSCRIPTION" s.id s.name) ++
      ((groupIdsOf (listedAssignments subs fetch)).map fun gid =>
        WOp.node "GROUP" gid (gName gid)) ++
      ((userIdsOf (listedAssignments subs fetch)).map fun uid =>
        WOp.node "USER" uid (uName uid)),
    (listedAssignments subs fetch).filterMap fun a =>
      (a.principal_node_type).map fun pl =>
        WOp.edge a.subscription_id pl.toLabel a.principal_id a.id a.role_id,
    (listedAssignments subs fetch).filterMap fun a =>
      (a.principal_node_type).map fun pl =>
        WOp.annot a.subscription_id pl.toLabel a.principal_id a.id a.role_id
          (rName a.subscription_id a.role_id),
    ?_, ?_, ?_, ?_, ?_⟩
  · unfold mainTrace
    simp [List.append_assoc]
  · intro op hop
    rcases List.mem_append.mp hop with h | h
    · rcases List.mem_append.mp h with h2 | h2
      · rcases List.mem_map.mp h2 with ⟨s, _, rfl⟩; rfl
      · rcases List.mem_map.mp h2 with ⟨gid, _, rfl⟩; rfl
    · rcases List.mem_map.mp h with ⟨uid, _, rfl⟩; rfl
  · intro op hop
    rcases List.mem_filterMap.mp hop with ⟨a, _, ha⟩
    rcases Option.map_eq_some'.mp ha with ⟨pl, _, rfl⟩
    rfl
  · intro op hop
    rcases List.mem_filterMap.mp hop with ⟨a, _, ha⟩
    rcases Option.map_eq_some'.mp ha with ⟨pl, _, rfl⟩
    rfl
  · intro sid pl pid aid rid hop
    rcases List.mem_filterMap.mp hop with ⟨a, hamem, ha⟩
    rcases Option.map_eq_some'.mp ha with ⟨pn, hpn, heq⟩
    -- decompose the constructor equality
    cases heq
    constructor
    · -- subscription endpoint: a was built from some listed subscription
      rcases List.mem_flatMap.mp hamem with ⟨s, hs, hbuild⟩
      refine ⟨s.name, ?_⟩
      apply List.mem_append.mpr
      left
      apply List.mem_append.mpr
      left
      apply List.mem_map.mpr
      refine ⟨s, hs, ?_⟩
      rw [buildAssignmentRelations_sub_id s _ a hbuild]
    · -- principal endpoint: the id is among the deduplicated group/user ids
      cases pn with
      | SUBSCRIPTION => exact absurd hpn (principalNodeType_ne_subscription _)
      | GROUP =>
          have ht : a.principal_type = "Group" := principalNodeType_group_inv hpn
          refine ⟨gName a.principal_id, ?_⟩
          apply List.mem_append.mpr
          left
          apply List.mem_append.mpr
          right
          apply List.mem_map.mpr
          refine ⟨a.principal_id, ?_, rfl⟩
          apply mem_unique.mpr
          exact List.mem_map.mpr ⟨a, List.mem_filter.mpr ⟨hamem, by simp [ht]⟩, rfl⟩
      | USER =>
          have ht : a.principal_type = "User" := principalNodeType_user_inv hpn
          refine ⟨uName a.principal_id, ?_⟩
          apply List.mem_append.mpr
          right
          apply List.mem_map.mpr
          refine ⟨a.principal_id, ?_, rfl⟩
          apply mem_unique.mpr
          exact List.mem_map.mpr ⟨a, List.mem_filter.mpr ⟨hamem, by simp [ht]⟩, rfl⟩

/-! ## Error propagation in `main` (`main.py`)

`main` wraps only the initial `driver.verify_connectivity()` in
`try/except` (exiting with status 1 on failure).  No other call site is
guarded, so any exception raised while listing subscriptions, fetching a
subscription's assignments, fetching a principal's display name or fetching
a role name propagates out of `main` and terminates the process. -/

/-- Failures observable at the process level: the guarded connectivity
failure, or an uncaught exception from any later stage. -/
inductive RunErr where
  | fatalConnectivity
  | uncaught (msg : String)
deriving DecidableEq, Repr

/-- The external collaborators of `main`, each fallible. -/
structure Env where
  connectivity : Bool
  subscriptions : Except String (List SubscriptionNode)
  rawAssignments : String → Except String (List RawAssignment)
  groupName : String → Except String String
  userName : String → Except String String
  roleName : String → String → Except String String

/-- The assignment-listing loop of `main`: one fetch per subscription (the
Azure client is opened on `clean_id`), results concatenated; the first
raised exception propagates. -/
def listAssignmentsE (env : Env) : List SubscriptionNode → Except String (List Assignment)
  | [] => .ok []
  | s :: ss =>
      match env.rawAssignments s.clean_id with
      | .error e => .error e
      | .ok raws =>
          match listAssignmentsE env ss with
          | .error e => .error e
          | .ok rest => .ok (buildAssignmentRelations s raws ++ rest)

/-- `build_group_nodes`: fetch each group's display name in order; the
first raised exception propagates. -/
def fetchGroupNodes (env : Env) : List String → Except String (List GroupNode)
  | [] => .ok []
  | gid :: rest =>
      match env.groupName gid with
      | .error e => .error e
      | .ok nm =>
          match fetchGroupNodes env rest with
          | .error e => .error e
          | .ok others => .ok (⟨gid, nm⟩ :: others)

/-- `build_user_nodes`: fetch each user's display name in order; the first
raised exception propagates. -/
def fetchUserNodes (env : Env) : List String → Except String (List UserNode)
  | [] => .ok []
  | uid :: rest =>
      match env.userName uid with
      | .error e => .error e
      | .ok nm =>
          match fetchUserNodes env rest with
          | .error e => .error e
          | .ok others => .ok (⟨uid, nm⟩ :: others)

/-- `update_role_name_records` with the fallible `fetch_role_name`: skip
unrecognized principal types; otherwise fetch the role name and run the
`SET` query; the first raised exception propagates. -/
def updateRoleNamesE (env : Env) : Graph → List Assignment → Except String Graph
  | g, [] => .ok g
  | g, a :: rest =>
      match a.principal_node_type with
      | none => updateRoleNamesE env g rest
      | some pl =>
          match env.roleName a.subscription_id a.role_id with
          | .error e => .error e
          | .ok rn =>
              updateRoleNamesE env
                (set_role_name g a.subscription_id pl.toLabel a.principal_id a.id
                  a.role_id rn)
                rest

/-- `main`, end to end: the connectivity check guarded by `try/except` →
`exit(1)`, then the unguarded pipeline in program order; any exception in
a later stage escapes `main` (`RunErr.uncaught`). -/
def run (env : Env) : Except RunErr Graph :=
  if env.connectivity = false then .error .fatalConnectivity
  else
    match env.subscriptions with
    | .error e => .error (.uncaught e)
    | .ok subs =>
        let g0 := record_subscriptions Graph.empty subs
        match listAssignmentsE env subs with
        | .error e => .error (.uncaught e)
        | .ok assigns =>
            match fetchGroupNodes env (groupIdsOf assigns) with
            | .error e => .error (.uncaught e)
            | .ok groups =>
                let g1 := record_groups g0 groups
                match fetchUserNodes env (userIdsOf assigns) with
                | .error e => .error (.uncaught e)
                | .ok users =>
                    let g2 := record_users g1 users
                    let g3 := record_assignments g2 assigns
                    match updateRoleNamesE env g3 assigns with
                    | .error e => .error (.uncaught e)
                    | .ok g4 => .ok g4

theorem listAssignmentsE_ok (env : Env) :
    ∀ (subs : List SubscriptionNode) (res : List Assignment),
      listAssignmentsE env subs = .ok res →
      ∀ s ∈ subs, ∃ raws, env.rawAssignments s.clean_id = .ok raws := by
  intro subs
  induction subs with
  | nil => intro res _ s hs; cases hs
  | cons x xs ih =>
      intro res hres s hs
      unfold listAssignmentsE at hres
      rcases List.mem_cons.mp hs with h | h
      · subst h
        cases hr : env.rawAssignments s.clean_id with
        | error e => rw [hr] at hres; cases hres
        | ok raws => exact ⟨raws, rfl⟩
      · cases hr : env.rawAssignments x.clean_id with
        | error e => rw [hr] at hres; cases hres
        | ok raws =>
            rw [hr] at hres
            cases hrest : listAssignmentsE env xs with
            | error e => rw [hrest] at hres; cases hres
            | ok rest => exact ih rest hrest s h

theorem fetchGroupNodes_error_of_mem (env : Env) :
    ∀ (ids : List String) (gid : String) (e : String), gid ∈ ids →
      env.groupName gid = .error e →
      ∃ e', fetchGroupNodes env ids = .error e' := by
  intro ids
  induction ids with
  | nil => intro gid e h; cases h
  | cons x xs ih =>
      intro gid e hmem herr
      unfold fetchGroupNodes
      rcases List.mem_cons.mp hmem with h | h
      · subst h
        rw [herr]
        exact ⟨e, rfl⟩
      · cases hx : env.groupName x with
        | error e2 => exact ⟨e2, rfl⟩
        | ok nm =>
            rcases ih gid e h herr with ⟨e', he'⟩
            rw [he']
            exact ⟨e', rfl⟩

/-- Group-name fetching succeeds only if every listed lookup succeeds. -/
theorem fetchGroupNodes_ok (env : Env) :
    ∀ (ids : List String) (res : List GroupNode),
      fetchGroupNodes env ids = .ok res →
      ∀ gid ∈ ids, ∃ nm, env.groupName gid = .ok nm := by
  intro ids
  induction ids with
  | nil => intro res _ gid h; cases h
  | cons x xs ih =>
      intro res hres gid hmem
      unfold fetchGroupNodes at hres
      rcases List.mem_cons.mp hmem with h | h
      · subst h
        cases hx : env.groupName gid with
        | error e => rw [hx] at hres; cases hres
        | ok nm => exact ⟨nm, rfl⟩
      · cases hx : env.groupName x with
        | error e => rw [hx] at hres; cases hres
        | ok nm =>
            rw [hx] at hres
            cases hrest : fetchGroupNodes env xs with
            | error e => rw [hrest] at hres; cases hres
            | ok others => exact ih others hrest gid h

/-- User-name fetching succeeds only if every listed lookup succeeds. -/
theorem fetchUserNodes_ok (env : Env) :
    ∀ (ids : List String) (res : List UserNode),
      fetchUserNodes env ids = .ok res →
      ∀ uid ∈ ids, ∃ nm, env.userName uid = .ok nm := by
  intro ids
  induction ids with
  | nil => intro res _ uid h; cases h
  | cons x xs ih =>
      intro res hres uid hmem
      unfold fetchUserNodes at hres
      rcases List.mem_cons.mp hmem with h | h
      · subst h
        cases hx : env.userName uid with
        | error e => rw [hx] at hres; cases hres
        | ok nm => exact ⟨nm, rfl⟩
      · cases hx : env.userName x with
        | error e => rw [hx] at hres; cases hres
        | ok nm =>
            rw [hx] at hres
            cases hrest : fetchUserNodes env xs with
            | error e => rw [hrest] at hres; cases hres
            | ok others => exact ih others hrest uid h

/-- A user-name lookup failure for any listed id fails the whole fetch. -/
theorem fetchUserNodes_error_of_mem (env : Env) :
    ∀ (ids : List String) (uid : String) (e : String), uid ∈ ids →
      env.userName uid = .error e →
      ∃ e', fetchUserNodes env ids = .error e' := by
  intro ids
  induction ids with
  | nil => intro uid e h; cases h
  | cons x xs ih =>
      intro uid e hmem herr
      unfold fetchUserNodes
      rcases List.mem_cons.mp hmem with h | h
      · subst h
        rw [herr]
        exact ⟨e, rfl⟩
      · cases hx : env.userName x with
        | error e2 => exact ⟨e2, rfl⟩
        | ok nm =>
            rcases ih uid e h herr with ⟨e', he'⟩
            rw [he']
            exact ⟨e', rfl⟩

/-- The role-name stage succeeds only if the role-name lookup succeeds for
every assignment with a recognized principal type. -/
theorem updateRoleNamesE_ok (env : Env) :
    ∀ (assigns : List Assignment) (g g' : Graph),
      updateRoleNamesE env g assigns = .ok g' →
      ∀ a ∈ assigns, ∀ pl, a.principal_node_type = some pl →
        ∃ rn, env.roleName a.subscription_id a.role_id = .ok rn := by
  intro assigns
  induction assigns with
  | nil => intro g g' _ a h; cases h
  | cons b rest ih =>
      intro g g' hres a hmem pl hpl
      unfold updateRoleNamesE at hres
      rcases List.mem_cons.mp hmem with h | h
      · subst h
        rw [hpl] at hres
        dsimp only [] at hres
        cases hrn : env.roleName a.subscription_id a.role_id with
        | error e => rw [hrn] at hres; cases hres
        | ok rn => exact ⟨rn, rfl⟩
      · cases hbt : b.principal_node_type with
        | none =>
            rw [hbt] at hres
            dsimp only [] at hres
            exact ih g g' hres a h pl hpl
        | some plb =>
            rw [hbt] at hres
            dsimp only [] at hres
            cases hrn : env.roleName b.subscription_id b.role_id with
            | error e => rw [hrn] at hres; cases hres
            | ok rn =>
                rw [hrn] at hres
                dsimp only [] at hres
                exact ih _ g' hres a h pl hpl

/-- Environment whose graph store is reachable but whose role-assignment
listing raises on subscription `s1`. -/
def fetchFailEnv : Env :=
  ⟨true, .ok [⟨"s1", "Prod"⟩], fun _ => .error "boom",
   fun _ => .ok "", fun _ => .ok "", fun _ _ => .ok ""⟩

/-- **C6 counterexample.** The run also aborts when the connectivity check
*succeeds*: a per-subscription assignment-fetch error is not contained — it
propagates out of `main` and terminates the process with a failure, the
run does not continue to completion. -/
theorem abort_on_subscription_fetch_error :
    fetchFailEnv.connectivity = true ∧
    run fetchFailEnv = .error (.uncaught "boom") :=
  ⟨rfl, rfl⟩

/-- **C6 (amended).** A failed connectivity check aborts the run with the
guarded fatal error — but containment does not hold for anything else:
whenever the run completes successfully, the connectivity check passed
*and* every per-subscription assignment fetch, every group and user
display-name lookup, and every role-name lookup for a recognized
assignment succeeded.  Contrapositively, a failure at any of those units
also aborts the process: no unit's failure is contained, and the run exits
zero only when every performed call succeeded. -/
theorem fatal_and_uncaught_aborts (env : Env) :
    (env.connectivity = false → run env = .error .fatalConnectivity) ∧
    (∀ subs assigns g, env.subscriptions = .ok subs →
      listAssignmentsE env subs = .ok assigns →
      run env = .ok g →
      env.connectivity = true ∧
      (∀ s ∈ subs, ∃ raws, env.rawAssignments s.clean_id = .ok raws) ∧
      (∀ gid ∈ groupIdsOf assigns, ∃ nm, env.groupName gid = .ok nm) ∧
      (∀ uid ∈ userIdsOf assigns, ∃ nm, env.userName uid = .ok nm) ∧
      (∀ a ∈ assigns, ∀ pl, a.principal_node_type = some pl →
        ∃ rn, env.roleName a.subscription_id a.role_id = .ok rn)) := by
  constructor
  · intro h
    unfold run
    rw [if_pos h]
  · intro subs assigns g hsubs hassigns hok
    by_cases hc : env.connectivity = false
    · unfold run at hok
      rw [if_pos hc] at hok
      cases hok
    · have hconn : env.connectivity = true := by
        revert hc; cases env.connectivity <;> simp
      unfold run at hok
      rw [if_neg hc] at hok
      rw [hsubs] at hok
      dsimp only [] at hok
      rw [hassigns] at hok
      dsimp only [] at hok
      cases hg : fetchGroupNodes env (groupIdsOf assigns) with
      | error e => rw [hg] at hok; cases hok
      | ok groups =>
          rw [hg] at hok
          dsimp only [] at hok
          cases hu : fetchUserNodes env (userIdsOf assigns) with
          | error e => rw [hu] at hok; cases hok
          | ok users =>
              rw [hu] at hok
              dsimp only [] at hok
              refine ⟨hconn, listAssignmentsE_ok env subs assigns hassigns,
                fetchGroupNodes_ok env _ _ hg, fetchUserNodes_ok env _ _ hu, ?_⟩
              cases hr : updateRoleNamesE env
                  (record_assignments (record_users (record_groups
                    (record_subscriptions Graph.empty subs) groups) users) assigns)
                  assigns with
              | error e => rw [hr] at hok; cases hok
              | ok g4 => exact updateRoleNamesE_ok env assigns _ g4 hr

/-- Environment in which every collaborator call succeeds: one
subscription, one group assignment, group name `Admins`, role name
`Owner`. -/
def allOkEnv : Env :=
  ⟨true, .ok [⟨"s1", "Prod"⟩],
   fun _ => .ok [⟨"a1", "r1", "g1", "Group"⟩],
   fun _ => .ok "Admins", fun _ => .ok "", fun _ _ => .ok "Owner"⟩

/-- Environment whose connectivity check fails. -/
def noConnEnv : Env :=
  ⟨false, .ok [], fun _ => .ok [], fun _ => .ok "", fun _ => .ok "", fun _ _ => .ok ""⟩

/-- Witness for the amended C6 at concrete inputs: a failed connectivity
check yields the fatal abort, and a fully successful environment completes
— with every fetch, display-name lookup and role-name lookup having
succeeded. -/
theorem fatal_and_uncaught_aborts_witness :
    (noConnEnv.connectivity = false ∧ run noConnEnv = .error .fatalConnectivity) ∧
    (allOkEnv.subscriptions = .ok [⟨"s1", "Prod"⟩] ∧
     listAssignmentsE allOkEnv [⟨"s1", "Prod"⟩]
        = .ok [⟨"a1", "s1", "r1", "g1", "Group"⟩] ∧
     run allOkEnv = .ok
        ⟨[⟨"SUBSCRIPTION", "s1", "Prod"⟩, ⟨"GROUP", "g1", "Admins"⟩],
         [⟨"ASSIGNMENT", "SUBSCRIPTION", "s1", "GROUP", "g1",
           [("id", "a1"), ("role_id", "r1"), ("role_name", "Owner")]⟩]⟩ ∧
     (allOkEnv.connectivity = true ∧
      (∀ s ∈ [(⟨"s1", "Prod"⟩ : SubscriptionNode)], ∃ raws,
        allOkEnv.rawAssignments s.clean_id = .ok raws) ∧
      (∀ gid ∈ groupIdsOf [⟨"a1", "s1", "r1", "g1", "Group"⟩], ∃ nm,
        allOkEnv.groupName gid = .ok nm) ∧
      (∀ uid ∈ userIdsOf [⟨"a1", "s1", "r1", "g1", "Group"⟩], ∃ nm,
        allOkEnv.userName uid = .ok nm) ∧
      (∀ a ∈ [(⟨"a1", "s1", "r1", "g1", "Group"⟩ : Assignment)], ∀ pl,
        a.principal_node_type = some pl →
        ∃ rn, allOkEnv.roleName a.subscription_id a.role_id = .ok rn))) :=
  ⟨⟨rfl, (fatal_and_uncaught_aborts noConnEnv).1 rfl⟩,
   ⟨rfl, rfl, rfl,
    (fatal_and_uncaught_aborts allOkEnv).2 [⟨"s1", "Prod"⟩]
      [⟨"a1", "s1", "r1", "g1", "Group"⟩]
      ⟨[⟨"SUBSCRIPTION", "s1", "Prod"⟩, ⟨"GROUP", "g1", "Admins"⟩],
       [⟨"ASSIGNMENT", "SUBSCRIPTION", "s1", "GROUP", "g1",
         [("id", "a1"), ("role_id", "r1"), ("role_name", "Owner")]⟩]⟩
      rfl rfl rfl⟩⟩

/-- Environment in which group `g1` — referenced by an assignment — has
been deleted from the directory: its display-name lookup reports NotFound. -/
def deletedPrincipalEnv : Env :=
  ⟨true, .ok [⟨"s1", "Prod"⟩],
   fun _ => .ok [⟨"a1", "r1", "g1", "Group"⟩],
   fun _ => .error "NotFound", fun _ => .ok "", fun _ _ => .ok ""⟩

/-- Environment in which user `u1` — referenced by an assignment — has
been deleted from the directory: its display-name lookup reports NotFound. -/
def deletedUserEnv : Env :=
  ⟨true, .ok [⟨"s1", "Prod"⟩],
   fun _ => .ok [⟨"a1", "r1", "u1", "User"⟩],
   fun _ => .ok "", fun _ => .error "NotFound", fun _ _ => .ok ""⟩

/-- **C9 counterexample.** When the directory reports NotFound for a
principal's display-name lookup, the run does *not* keep `name = ""` and
proceed: the exception propagates out of `build_group_nodes` and the run
aborts with no graph produced. -/
theorem notfound_aborts_run_cex :
    deletedPrincipalEnv.groupName "g1" = .error "NotFound" ∧
    run deletedPrincipalEnv = .error (.uncaught "NotFound") :=
  ⟨rfl, rfl⟩

/-- **C9 (amended).** A NotFound from the directory on a display-name
lookup for any principal referenced by the run's assignments — group or
user — is *not* recoverable: the exception escapes `build_group_nodes`
resp. `build_user_nodes` uncaught and the run aborts instead of keeping
`name = ""` and proceeding. -/
theorem notfound_name_lookup_aborts (env : Env) (subs : List SubscriptionNode)
    (assigns : List Assignment) (pid e : String)
    (hsubs : env.subscriptions = .ok subs)
    (hassigns : listAssignmentsE env subs = .ok assigns)
    (hlookup : (pid ∈ groupIdsOf assigns ∧ env.groupName pid = .error e) ∨
      (pid ∈ userIdsOf assigns ∧ env.userName pid = .error e)) :
    ∃ err, run env = .error err := by
  by_cases hc : env.connectivity = false
  · exact ⟨.fatalConnectivity, by unfold run; rw [if_pos hc]⟩
  · rcases hlookup with ⟨hpid, herr⟩ | ⟨hpid, herr⟩
    · rcases fetchGroupNodes_error_of_mem env (groupIdsOf assigns) pid e hpid herr
        with ⟨e', he'⟩
      refine ⟨.uncaught e', ?_⟩
      unfold run
      rw [if_neg hc, hsubs]
      simp only [hassigns, he']
    · cases hg : fetchGroupNodes env (groupIdsOf assigns) with
      | error e2 =>
          refine ⟨.uncaught e2, ?_⟩
          unfold run
          rw [if_neg hc, hsubs]
          simp only [hassigns, hg]
      | ok groups =>
          rcases fetchUserNodes_error_of_mem env (userIdsOf assigns) pid e hpid herr
            with ⟨e', he'⟩
          refine ⟨.uncaught e', ?_⟩
          unfold run
          rw [if_neg hc, hsubs]
          simp only [hassigns, hg, he']

/-- Witness for the amended C9 at concrete inputs: the deleted group `g1`
aborts the run, and so does the deleted user `u1`. -/
theorem notfound_name_lookup_aborts_witness :
    ((deletedPrincipalEnv.subscriptions = .ok [⟨"s1", "Prod"⟩] ∧
      listAssignmentsE deletedPrincipalEnv [⟨"s1", "Prod"⟩]
        = .ok [⟨"a1", "s1", "r1", "g1", "Group"⟩] ∧
      ("g1" ∈ groupIdsOf [⟨"a1", "s1", "r1", "g1", "Group"⟩] ∧
        deletedPrincipalEnv.groupName "g1" = .error "NotFound")) ∧
     (∃ err, run deletedPrincipalEnv = .error err)) ∧
    ((deletedUserEnv.subscriptions = .ok [⟨"s1", "Prod"⟩] ∧
      listAssignmentsE deletedUserEnv [⟨"s1", "Prod"⟩]
        = .ok [⟨"a1", "s1", "r1", "u1", "User"⟩] ∧
      ("u1" ∈ userIdsOf [⟨"a1", "s1", "r1", "u1", "User"⟩] ∧
        deletedUserEnv.userName "u1" = .error "NotFound")) ∧
     (∃ err, run deletedUserEnv = .error err)) :=
  ⟨⟨⟨rfl, rfl, by decide, rfl⟩,
    notfound_name_lookup_aborts deletedPrincipalEnv [⟨"s1", "Prod"⟩]
      [⟨"a1", "s1", "r1", "g1", "Group"⟩] "g1" "NotFound" rfl rfl
      (Or.inl ⟨by decide, rfl⟩)⟩,
   ⟨⟨rfl, rfl, by decide, rfl⟩,
    notfound_name_lookup_aborts deletedUserEnv [⟨"s1", "Prod"⟩]
      [⟨"a1", "s1", "r1", "u1", "User"⟩] "u1" "NotFound" rfl rfl
      (Or.inr ⟨by decide, rfl⟩)⟩⟩

/-! ## Membership expansion

`models/principals.py` provides the per-group pieces —
`GroupPrincipal.fetch_members` (list a group's direct members, keeping only
`Group` and `User` directory objects) and `merge_member_record` (write one
`MEMBER_OF` edge) — but the recursive expander described by the spec
(`expandMembers` with a threaded `visited` set) appears in no file under
`src/`.  It is modelled here from the spec. -/

/-- A directory object in a group's member list, before typing. -/
structure RawMember where
  rtype : String
  mid : String
deriving DecidableEq, Repr

/-- A typed direct member: a nested group or a user. -/
structure Member where
  isGroup : Bool
  mid : String
deriving DecidableEq, Repr

/-- The directory's group-membership data: group id ↦ member list. -/
abbrev MGraph := List (String × List RawMember)

/-- `GroupPrincipal.fetch_members`: list the group's direct members,
keeping `Group` and `User` objects and skipping everything else.  A group
id absent from the directory has no members. -/
def fetch_members (G : MGraph) (gid : String) : List Member :=
  (((G.find? fun p => p.1 == gid).map Prod.snd).getD []).filterMap fun r =>
    if r.rtype == "Group" then some ⟨true, r.mid⟩
    else if r.rtype == "User" then some ⟨false, r.mid⟩
    else none

/-- Every group id the directory can ever steer the expansion into: the
listed group ids plus every group-typed member id, deduplicated. -/
def allGroupIds (G : MGraph) : List String :=
  ((G.map Prod.fst) ++
    (G.flatMap fun p => ((p.2.filter fun r => r.rtype == "Group").map (·.mid)))).dedup

/-- Modelled from the spec: the worker of `expandMembers` (§4.3 of the
spec; the recursive expander is absent from `src/`).  It walks the member
list `ms` of the group `gid` being expanded, emitting one
`(member, group)` pair per direct member; a member that is itself a group
and not yet in `visited` is recursively expanded, with its id added to the
visited set *before* the recursive call, and the grown visited set is
threaded through to the remaining siblings.  `fuel` bounds the recursion
depth; `none` marks fuel exhaustion (shown unreachable below when `fuel`
exceeds the number of distinct groups not yet visited). -/
def expandGo (G : MGraph) : Nat → String → List Member → List String →
    Option (List (Member × String) × List String)
  | _, _, [], vis => some ([], vis)
  | 0, gid, m :: ms, vis =>
      if m.isGroup = true ∧ m.mid ∉ vis then none
      else
        match expandGo G 0 gid ms vis with
        | none => none
        | some (out2, vis2) => some ((m, gid) :: out2, vis2)
  | f + 1, gid, m :: ms, vis =>
      if m.isGroup = true ∧ m.mid ∉ vis then
        match expandGo G f m.mid (fetch_members G m.mid) (m.mid :: vis) with
        | none => none
        | some (out1, vis1) =>
            match expandGo G (f + 1) gid ms vis1 with
            | none => none
            | some (out2, vis2) => some ((m, gid) :: out1 ++ out2, vis2)
      else
        match expandGo G (f + 1) gid ms vis with
        | none => none
        | some (out2, vis2) => some ((m, gid) :: out2, vis2)
termination_by fuel _ ms _ => (fuel, ms.length)

/-- Modelled from the spec: `expandMembers(group, visited)`.  The group's
own id enters the visited set before any recursion; the fuel bound is one
more than the number of distinct group ids known to the directory. -/
def expandMembers (G : MGraph) (gid : String) (visited : List String) :
    Option (List (Member × String) × List String) :=
  expandGo G ((allGroupIds G).length + 1) gid (fetch_members G gid) (gid :: visited)

theorem fetch_members_group_mem_allGroupIds (G : MGraph) (gid : String) :
    ∀ m ∈ fetch_members G gid, m.isGroup = true → m.mid ∈ allGroupIds G := by
  intro m hm hg
  unfold fetch_members at hm
  cases hf : G.find? fun p => p.1 == gid with
  | none => rw [hf] at hm; cases hm
  | some pr =>
      rw [hf] at hm
      simp only [Option.map, Option.getD] at hm
      rcases List.mem_filterMap.mp hm with ⟨r, hr, hres⟩
      have hpr : pr ∈ G := List.mem_of_find?_eq_some hf
      by_cases h1 : r.rtype == "Group"
      · rw [if_pos h1] at hres
        injection hres with hres
        subst hres
        unfold allGroupIds
        apply List.mem_dedup.mpr
        apply List.mem_append.mpr
        right
        apply List.mem_flatMap.mpr
        refine ⟨pr, hpr, ?_⟩
        exact List.mem_map.mpr ⟨r, List.mem_filter.mpr ⟨hr, h1⟩, rfl⟩
      · rw [if_neg h1] at hres
        by_cases h2 : r.rtype == "User"
        · rw [if_pos h2] at hres
          injection hres with hres
          subst hres
          cases hg
        · rw [if_neg h2] at hres
          cases hres


theorem perm_shuffle4 {α : Type} (A B C D : List α) :
    ((A ++ B) ++ (C ++ D)).Perm (C ++ (D ++ (B ++ A))) := by
  refine List.Perm.trans List.perm_append_comm ?_
  rw [List.append_assoc]
  apply List.Perm.append_left
  apply List.Perm.append_left
  exact List.perm_append_comm

theorem expandGo_nil (G : MGraph) (fuel : Nat) (gid : String) (vis : List String) :
    expandGo G fuel gid [] vis = some ([], vis) := by
  cases fuel <;> simp [expandGo]

/-- The structural invariant of `expandGo`: on success the visited set has
grown by a duplicate-free block `new` of previously unvisited ids, and the
emitted pairs are, up to order, one pair per member of the current list
plus one pair per direct member of each newly expanded group. -/
theorem expandGo_spec (G : MGraph) :
    ∀ (fuel : Nat) (ms : List Member) (gid : String) (vis : List String)
      (out : List (Member × String)) (vis' : List String),
      expandGo G fuel gid ms vis = some (out, vis') →
      ∃ new, vis' = new ++ vis ∧
        new.Nodup ∧ (∀ x ∈ new, x ∉ vis) ∧
        out.Perm ((ms.map fun m => (m, gid)) ++
          new.flatMap fun h => (fetch_members G h).map fun m => (m, h)) := by
  intro fuel
  induction fuel using Nat.strong_induction_on with
  | _ fuel ihf =>
      intro ms
      induction ms with
      | nil =>
          intro gid vis out vis' h
          rw [expandGo_nil] at h
          injection h with h
          injection h with h1 h2
          subst h1
          subst h2
          refine ⟨[], by simp, List.nodup_nil, by simp, ?_⟩
          simp only [List.map_nil, List.nil_append, List.flatMap_nil]
          exact List.Perm.nil
      | cons m ms ihm =>
          intro gid vis out vis' h
          cases fuel with
          | zero =>
              unfold expandGo at h
              split at h
              · cases h
              · cases h2 : expandGo G 0 gid ms vis with
                | none => rw [h2] at h; cases h
                | some p2 =>
                    obtain ⟨out2, vis2⟩ := p2
                    rw [h2] at h
                    dsimp only [] at h
                    injection h with h
                    injection h with hout hvis
                    subst hout; subst hvis
                    obtain ⟨new, hv, hnd, hdj, hp⟩ := ihm _ _ _ _ h2
                    refine ⟨new, hv, hnd, hdj, ?_⟩
                    simp only [List.map_cons, List.cons_append]
                    exact List.Perm.cons _ hp
          | succ f =>
              unfold expandGo at h
              split at h
              · next hcond =>
                  cases h1 : expandGo G f m.mid (fetch_members G m.mid) (m.mid :: vis) with
                  | none => rw [h1] at h; cases h
                  | some p1 =>
                      obtain ⟨out1, vis1⟩ := p1
                      rw [h1] at h
                      dsimp only [] at h
                      cases h2 : expandGo G (f + 1) gid ms vis1 with
                      | none => rw [h2] at h; cases h
                      | some p2 =>
                          obtain ⟨out2, vis2⟩ := p2
                          rw [h2] at h
                          dsimp only [] at h
                          injection h with h
                          injection h with hout hvis
                          subst hout; subst hvis
                          obtain ⟨new1, hv1, hnd1, hdj1, hp1⟩ :=
                            ihf f (Nat.lt_succ_self f) _ _ _ _ _ h1
                          obtain ⟨new2, hv2, hnd2, hdj2, hp2⟩ := ihm _ _ _ _ h2
                          have hmid_vis1 : m.mid ∈ vis1 := by
                            rw [hv1]; simp
                          have hnew2_not1 : ∀ x ∈ new2, x ∉ new1 := by
                            intro x hx hx1
                            exact hdj2 x hx (by rw [hv1]; simp [hx1])
                          have hnew2_notm : m.mid ∉ new2 := fun hx =>
                            hdj2 m.mid hx hmid_vis1
                          have hnew1_notm : m.mid ∉ new1 := fun hx =>
                            hdj1 m.mid hx (by simp)
                          refine ⟨new2 ++ new1 ++ [m.mid], ?_, ?_, ?_, ?_⟩
                          · rw [hv2, hv1]
                            simp [List.append_assoc]
                          · rw [List.nodup_append]
                            refine ⟨List.nodup_append.mpr
                              ⟨hnd2, hnd1, fun x hx => hnew2_not1 x hx⟩,
                              by simp, ?_⟩
                            intro x hx
                            rcases List.mem_append.mp hx with hx | hx
                            · simp only [List.mem_singleton]
                              intro he; subst he; exact hnew2_notm hx
                            · simp only [List.mem_singleton]
                              intro he; subst he; exact hnew1_notm hx
                          · intro x hx
                            rcases List.mem_append.mp hx with hx | hx
                            · rcases List.mem_append.mp hx with hx | hx
                              · intro hxv
                                exact hdj2 x hx (by rw [hv1]; simp [hxv])
                              · intro hxv
                                exact hdj1 x hx (by simp [hxv])
                            · simp only [List.mem_singleton] at hx
                              subst hx
                              exact hcond.2
                          · have hflat : (new2 ++ new1 ++ [m.mid]).flatMap
                                (fun h => (fetch_members G h).map fun mm => (mm, h))
                                = (new2.flatMap fun h =>
                                    (fetch_members G h).map fun mm => (mm, h)) ++
                                  ((new1.flatMap fun h =>
                                    (fetch_members G h).map fun mm => (mm, h)) ++
                                  ((fetch_members G m.mid).map fun mm => (mm, m.mid))) := by
                              simp [List.flatMap_append]
                            rw [hflat]
                            simp only [List.map_cons, List.cons_append]
                            refine List.Perm.trans (List.Perm.cons _
                              (List.Perm.append hp1 hp2)) ?_
                            apply List.Perm.cons
                            exact perm_shuffle4 ..
              · cases h2 : expandGo G (f + 1) gid ms vis with
                | none => rw [h2] at h; cases h
                | some p2 =>
                    obtain ⟨out2, vis2⟩ := p2
                    rw [h2] at h
                    dsimp only [] at h
                    injection h with h
                    injection h with hout hvis
                    subst hout; subst hvis
                    obtain ⟨new, hv, hnd, hdj, hp⟩ := ihm _ _ _ _ h2
                    refine ⟨new, hv, hnd, hdj, ?_⟩
                    simp only [List.map_cons, List.cons_append]
                    exact List.Perm.cons _ hp

/-- Distinct group ids the expansion may still enter. -/
def remaining (G : MGraph) (vis : List String) : Nat :=
  ((allGroupIds G).filter fun x => decide (x ∉ vis)).length

theorem filter_length_le_of_imp {α : Type} (p q : α → Bool)
    (himp : ∀ x, p x = true → q x = true) :
    ∀ l : List α, (l.filter p).length ≤ (l.filter q).length := by
  intro l
  induction l with
  | nil => simp
  | cons x xs ih =>
      cases hp : p x
      · cases hq : q x
        · simpa [List.filter_cons, hp, hq, Bool.false_eq_true, if_false] using ih
        · have hih := ih
          simp only [List.filter_cons, hp, hq, Bool.false_eq_true, if_false,
            if_true, List.length_cons]
          omega
      · have hih := ih
        simp only [List.filter_cons, hp, himp x hp, if_true, List.length_cons]
        omega

theorem remaining_subset_le (G : MGraph) (vis vis' : List String)
    (h : ∀ x, x ∈ vis → x ∈ vis') :
    remaining G vis' ≤ remaining G vis := by
  apply filter_length_le_of_imp
  intro x hx
  simp only [decide_eq_true_eq] at hx ⊢
  exact fun hmem => hx (h x hmem)

theorem filter_notmem_cons_succ (a : String) (vis : List String) :
    ∀ (l : List String), l.Nodup → a ∈ l → a ∉ vis →
      (l.filter fun x => decide (x ∉ a :: vis)).length + 1
        = (l.filter fun x => decide (x ∉ vis)).length := by
  intro l
  induction l with
  | nil => intro _ h; cases h
  | cons y ys ih =>
      intro hnd hmem hav
      have hysnd : ys.Nodup := (List.nodup_cons.mp hnd).2
      have hynotin : y ∉ ys := (List.nodup_cons.mp hnd).1
      rcases List.mem_cons.mp hmem with he | he
      · subst he
        have hskip : (decide (a ∉ a :: vis)) = false := by simp
        have hkeep : (decide (a ∉ vis)) = true := by simp [hav]
        have htails : (ys.filter fun x => decide (x ∉ a :: vis))
            = ys.filter fun x => decide (x ∉ vis) := by
          apply List.filter_congr
          intro x hx
          have hxa : x ≠ a := fun he2 => hynotin (he2 ▸ hx)
          simp [List.mem_cons, hxa]
        simp only [List.filter_cons, hskip, hkeep, Bool.false_eq_true, if_false,
          if_true, htails, List.length_cons]
      · have hya : y ≠ a := fun he2 => (he2 ▸ hynotin) he
        have hsame : (decide (y ∉ a :: vis)) = (decide (y ∉ vis)) := by
          simp [List.mem_cons, hya]
        cases hy : (decide (y ∉ vis)) with
        | false =>
            rw [hy] at hsame
            have hih := ih hysnd he hav
            simp only [List.filter_cons, hsame, hy, Bool.false_eq_true, if_false]
            omega
        | true =>
            rw [hy] at hsame
            have hih := ih hysnd he hav
            simp only [List.filter_cons, hsame, hy, if_true, List.length_cons]
            omega

theorem remaining_cons_lt (G : MGraph) (a : String) (vis : List String)
    (ha : a ∈ allGroupIds G) (hav : a ∉ vis) :
    remaining G (a :: vis) + 1 = remaining G vis := by
  unfold remaining
  exact filter_notmem_cons_succ a vis (allGroupIds G)
    (by unfold allGroupIds; exact List.nodup_dedup _) ha hav

/-- Fuel sufficiency: with more fuel than there are unvisited group ids,
`expandGo` never exhausts its fuel. -/
theorem expandGo_isSome (G : MGraph) :
    ∀ (fuel : Nat) (ms : List Member) (gid : String) (vis : List String),
      (∀ m ∈ ms, m.isGroup = true → m.mid ∈ allGroupIds G) →
      remaining G vis < fuel →
      ∃ r, expandGo G fuel gid ms vis = some r := by
  intro fuel
  induction fuel using Nat.strong_induction_on with
  | _ fuel ihf =>
      intro ms
      induction ms with
      | nil =>
          intro gid vis _ _
          exact ⟨([], vis), expandGo_nil ..⟩
      | cons m ms ihm =>
          intro gid vis hsub hrem
          cases fuel with
          | zero => omega
          | succ f =>
              unfold expandGo
              split
              · next hcond =>
                  have hmem : m.mid ∈ allGroupIds G :=
                    hsub m (List.mem_cons_self m ms) hcond.1
                  have hrem1 : remaining G (m.mid :: vis) < f := by
                    have := remaining_cons_lt G m.mid vis hmem hcond.2
                    omega
                  obtain ⟨r1, h1⟩ := ihf f (Nat.lt_succ_self f)
                    (fetch_members G m.mid) m.mid (m.mid :: vis)
                    (fetch_members_group_mem_allGroupIds G m.mid) hrem1
                  obtain ⟨out1, vis1⟩ := r1
                  rw [h1]
                  dsimp only []
                  obtain ⟨new1, hv1, _, _, _⟩ := expandGo_spec G f _ _ _ _ _ h1
                  have hvsub : ∀ x, x ∈ vis → x ∈ vis1 := by
                    intro x hx
                    rw [hv1]
                    simp [hx]
                  have hrem2 : remaining G vis1 < f + 1 :=
                    lt_of_le_of_lt (remaining_subset_le G vis vis1 hvsub) hrem
                  obtain ⟨r2, h2⟩ := ihm gid vis1
                    (fun mm hmm hg => hsub mm (List.mem_cons_of_mem m hmm) hg) hrem2
                  obtain ⟨out2, vis2⟩ := r2
                  rw [h2]
                  exact ⟨_, rfl⟩
              · have hex := ihm gid vis
                  (fun mm hmm hg => hsub mm (List.mem_cons_of_mem m hmm) hg) hrem
                obtain ⟨⟨out2, vis2⟩, h2⟩ := hex
                rw [h2]
                exact ⟨_, rfl⟩

/-- **C2.** For every group-membership graph — cyclic ones included —
membership expansion terminates (the fuel marker `none` is never returned:
recursion depth is bounded by the number of distinct groups, since the
visited set takes in a group's id before the recursive call and strictly
shrinks the unvisited pool); each reachable group is expanded at most once
per run (the newly visited block is duplicate-free and disjoint from the
incoming visited set, which already holds the id being expanded); and the
member→group pairs produced are exactly one per direct member of each
expanded group, up to order — so each direct-membership `MEMBER_OF` edge is
produced exactly once. -/
theorem expandMembers_cycle_safe (G : MGraph) (gid : String) (visited : List String) :
    ∃ out new,
      expandMembers G gid visited = some (out, new ++ (gid :: visited)) ∧
      new.Nodup ∧ (∀ x ∈ new, x ∉ gid :: visited) ∧
      out.Perm (((fetch_members G gid).map fun m => (m, gid)) ++
        new.flatMap fun h => (fetch_members G h).map fun m => (m, h)) := by
  have hle : remaining G (gid :: visited) ≤ (allGroupIds G).length := by
    unfold remaining
    exact List.length_filter_le _ _
  have hrem : remaining G (gid :: visited) < (allGroupIds G).length + 1 := by omega
  obtain ⟨⟨out, vis'⟩, h⟩ := expandGo_isSome G ((allGroupIds G).length + 1)
    (fetch_members G gid) gid (gid :: visited)
    (fetch_members_group_mem_allGroupIds G gid) hrem
  obtain ⟨new, hv, hnd, hdj, hp⟩ := expandGo_spec G _ _ _ _ _ _ h
  subst hv
  exact ⟨out, new, h, hnd, hdj, hp⟩

/-- The spec's concrete cycle scenario, evaluated: groups `A` and `B` each
member of the other.  Expansion from `A` terminates; `A` and `B` are each
expanded once; the `MEMBER_OF` pair for each direction appears exactly
once. -/
theorem expandMembers_two_cycle :
    expandMembers [("A", [⟨"Group", "B"⟩]), ("B", [⟨"Group", "A"⟩])] "A" []
      = some ([(⟨true, "B"⟩, "A"), (⟨true, "A"⟩, "B")], ["B", "A"]) := by
  simp [expandMembers, allGroupIds, fetch_members, expandGo]
